import Mathlib

/-!
Verification of google/traceout against its specification.

This file gives a shallow embedding, in Lean, of the parts of the Go sources
that the checked claims are about:

* package cparse (ftrace/cparse/lex.go, ftrace/cparse/expression.go):
  the C expression value model (integer promotion, balancing, clamping,
  sign extension) and the operator evaluator;
* package ftrace: the ring-buffer page decoder (decodePage and the event
  decoding it relies on), the printf conversion munging
  (mungePrintfConversions together with the kernelFunctions table) and the
  ftrace path check (SafeFtracePath and the file providers).

Go machine integers are modelled as Nat with explicit reduction modulo
2^64 where the Go code relies on uint64 wrap-around; signed readings go
through an explicit two's-complement interpretation.  A Go runtime panic
(slice out of range, division by zero, unreachable branches that call
panic) is modelled as the value none of an Option type.
-/

set_option maxHeartbeats 1000000

namespace Cparse

/-- Model of Go uint64 wrap-around: reduce modulo 2^64. -/
def wrap64 (n : Nat) : Nat := n % 2 ^ 64

/-- Model of Go uint64 negation: two's complement of the low 64 bits. -/
def neg64 (n : Nat) : Nat := (2 ^ 64 - n % 2 ^ 64) % 2 ^ 64

/-- Model of Go uint64 bitwise complement (the ^ unary operator). -/
def compl64 (n : Nat) : Nat := (2 ^ 64 - 1) - n % 2 ^ 64

/-- Model of the Go conversion int64(x) of a uint64 x: reinterpret the low
64 bits as a two's-complement signed integer. -/
def toInt64 (n : Nat) : Int :=
  if n % 2 ^ 64 < 2 ^ 63 then (n % 2 ^ 64 : Int) else (n % 2 ^ 64 : Int) - 2 ^ 64

/-- Integer types (lex.go): size is in bytes.  The size field is an int in
Go; every constructed intType in the sources carries a non-negative size,
so it is modelled as Nat. -/
structure intType where
  size : Nat
  signed : Bool
deriving DecidableEq, Repr

/-- Constant intSize = 4 from lex.go. -/
def intSize : Nat := 4

/-- intPromote from lex.go: C integer promotion. -/
def intPromote (i : intType) : intType :=
  if i.size < intSize then { size := intSize, signed := true } else i

/-- intResize from lex.go; the function panics when asked to truncate,
modelled as none. -/
def intResize (i : intType) (size : Nat) : Option intType :=
  if i.size > size then none else some { i with size := size }

/-- intSigned from lex.go. -/
def intSigned (i : intType) : intType := { i with signed := true }

/-- intUnsigned from lex.go. -/
def intUnsigned (i : intType) : intType := { i with signed := false }

/-- intBalance from lex.go: the C usual arithmetic conversions on integer
types.  The sequential switch cases become nested conditionals; the
should-never-get-here panic and the two panicking post-checks are modelled
as none. -/
def intBalance (a b : intType) : Option (intType × intType) := do
  let (a, b) ←
    if a.signed = b.signed ∧ a.size = b.size then
      some (a, b)
    else if a.signed = b.signed ∧ a.size > b.size then do
      let b ← intResize b a.size
      some (a, b)
    else if a.signed = b.signed ∧ b.size > a.size then do
      let a ← intResize a b.size
      some (a, b)
    else if ¬a.signed ∧ a.size ≥ b.size then do
      let b ← intResize b a.size
      some (a, intUnsigned b)
    else if ¬b.signed ∧ b.size ≥ a.size then do
      let a ← intResize a b.size
      some (intUnsigned a, b)
    else if a.signed ∧ a.size > b.size then do
      let b ← intResize b a.size
      some (a, intSigned b)
    else if b.signed ∧ b.size > a.size then do
      let a ← intResize a b.size
      some (intSigned a, b)
    else if a.signed then do
      let a := intUnsigned a
      let b ← intResize b a.size
      some (a, b)
    else if b.signed then do
      let b := intUnsigned b
      let a ← intResize a b.size
      some (a, b)
    else
      none
  if a.signed ≠ b.signed then none
  else if a.size ≠ b.size then none
  else some (a, b)

/-- Mask used by intSignExtend and intClamp in lex.go: the Go expression
uint64(1 shifted left by size*8) - 1, computed with uint64 wrap-around (so
size = 8 yields all ones). -/
def goMask (size : Nat) : Nat := ((1 <<< (size * 8)) % 2 ^ 64 + (2 ^ 64 - 1)) % 2 ^ 64

/-- Sign mask from intSignExtend in lex.go: bit size*8-1.  For size = 0 the
Go shift count wraps to a value of at least 64 and the uint64 shift yields
0. -/
def goSignMask (size : Nat) : Nat :=
  if size = 0 then 0 else (1 <<< (size * 8 - 1)) % 2 ^ 64

/-- intSignExtend from lex.go. -/
def intSignExtend (val : Nat) (typ : intType) : Nat :=
  if typ.signed ∧ val &&& goSignMask typ.size ≠ 0 then
    val ||| compl64 (goMask typ.size)
  else
    val

/-- intClamp from lex.go. -/
def intClamp (val : Nat) (typ : intType) : Nat := val &&& goMask typ.size

/-- Value type tags from lex.go. -/
inductive valueType where
  | valueInt
  | valueString
  | valueList
  | valueError
deriving DecidableEq, Repr

/-- Value from lex.go.  The listVal field is omitted: none of the
operations embedded here touches it (lists would make the structure
recursive; no checked claim is about list values). -/
structure Value where
  typ : valueType := .valueInt
  stringVal : String := ""
  intVal : Nat := 0
  intType : intType := { size := 0, signed := false }
deriving DecidableEq, Repr

instance : Inhabited Value := ⟨{}⟩

/-- NewValueError from lex.go; the printf-style argument formatting is
dropped, the embedded callers pass a plain message. -/
def NewValueError (error : String) : Value :=
  { typ := .valueError, stringVal := error }

/-- IsError from lex.go. -/
def Value.IsError (v : Value) : Bool := v.typ = .valueError

/-- NewValueInt from lex.go.  The parameter has Go type uint64, modelled by
reducing modulo 2^64; the value is stored without clamping or sign
extension. -/
def NewValueInt (val : Nat) (size : Nat) (signed : Bool) : Value :=
  { typ := .valueInt, intVal := val % 2 ^ 64, intType := { size := size, signed := signed } }

/-- newValueIntLike from lex.go. -/
def newValueIntLike (i : Value) (val : Nat) : Value :=
  { i with intVal := intSignExtend (intClamp (val % 2 ^ 64) i.intType) i.intType }

/-- newValueIntCast from lex.go. -/
def newValueIntCast (i : Value) (t : intType) : Value :=
  { i with intType := t, intVal := intSignExtend (intClamp i.intVal t) t }

/-- IsInt from lex.go. -/
def Value.IsInt (v : Value) : Bool := v.typ = .valueInt

/-- AsInt from lex.go: int64(v.intVal). -/
def Value.AsInt (v : Value) : Int := toInt64 v.intVal

/-- AsUint64 from lex.go. -/
def Value.AsUint64 (v : Value) : Nat := intClamp v.intVal v.intType

/-- Constants valueTrue and valueFalse from lex.go. -/
def valueTrue : Value := NewValueInt 1 4 true

/-- Constant valueFalse from lex.go. -/
def valueFalse : Value := NewValueInt 0 4 true

/-- NewValueBool from lex.go. -/
def NewValueBool (b : Bool) : Value := if b then valueTrue else valueFalse

/-- AsBool from lex.go. -/
def Value.AsBool (v : Value) : Bool := v.intVal ≠ 0

/-- NewValueString from lex.go. -/
def NewValueString (s : String) : Value :=
  { typ := .valueString, stringVal := s }

/-- Token kinds from lex.go (only the ones the expression evaluator
handles are ever constructed by the embedded callers). -/
inductive tokenType where
  | tokenNone
  | tokenError
  | tokenString
  | tokenNumber
  | tokenSymbol
  | tokenPlus
  | tokenMinus
  | tokenBoolNot
  | tokenNot
  | tokenMult
  | tokenDiv
  | tokenMod
  | tokenLeftShift
  | tokenRightShift
  | tokenLess
  | tokenLessEqual
  | tokenGreater
  | tokenGreaterEqual
  | tokenEqual
  | tokenNotEqual
  | tokenAnd
  | tokenXor
  | tokenOr
  | tokenBoolAnd
  | tokenBoolOr
  | tokenQuestion
  | tokenColon
  | tokenLeftParen
  | tokenRightParen
  | tokenComma
  | tokenLeftBracket
  | tokenRightBracket
deriving DecidableEq, Repr

/-- Token from lex.go. -/
structure token where
  typ : tokenType
  pos : Nat := 0
  val : String := ""
deriving DecidableEq, Repr

/-- Expressions (expression.go).  Only the constructors the claims
exercise are embedded: constantExpression (whose Value method returns the
stored value) and operatorExpression.  Variable, list, struct and function
expressions are not needed by any checked claim. -/
inductive Expression where
  | constant (val : Value)
  | operator (operator : token) (args : List Expression)

/-- Zero Value of Go (var v1, v2, v3 Value in operatorExpression.Value). -/
def nullValue : Value := {}

/-- Operand checking phase of operatorExpression.Value (expression.go):
returns some error value when the Go code returns early with a
NewValueError, and none when checking passes. -/
def checkOperands (operator : token) (nargs : Nat) (v1 v2 : Value) : Option Value :=
  match operator.typ with
  | .tokenNot | .tokenBoolNot =>
    if nargs ≠ 1 then some (NewValueError ("wrong number of args to " ++ operator.val))
    else if ¬v1.IsInt then
      some (NewValueError ("expected integer as left operand to " ++ operator.val))
    else none
  | .tokenPlus | .tokenMinus =>
    if nargs = 1 then
      if ¬v1.IsInt then
        some (NewValueError ("expected integer as left operand to " ++ operator.val))
      else none
    else if nargs ≠ 2 then
      some (NewValueError ("wrong number of args to " ++ operator.val))
    else if ¬v1.IsInt then
      some (NewValueError ("expected integer as left operand to " ++ operator.val))
    else if ¬v2.IsInt then
      some (NewValueError ("expected integer as right operand to " ++ operator.val))
    else none
  | .tokenMult | .tokenDiv | .tokenMod
  | .tokenLeftShift | .tokenRightShift
  | .tokenLess | .tokenLessEqual
  | .tokenGreater | .tokenGreaterEqual
  | .tokenEqual | .tokenNotEqual
  | .tokenAnd | .tokenXor | .tokenOr
  | .tokenBoolAnd | .tokenBoolOr =>
    if nargs ≠ 2 then some (NewValueError ("wrong number of args to " ++ operator.val))
    else if ¬v1.IsInt then
      some (NewValueError ("expected integer as left operand to " ++ operator.val))
    else if ¬v2.IsInt then
      some (NewValueError ("expected integer as right operand to " ++ operator.val))
    else none
  | .tokenQuestion =>
    if nargs ≠ 3 then some (NewValueError ("wrong number of args to " ++ operator.val))
    else if ¬v1.IsInt then
      some (NewValueError ("expected integer as operand to " ++ operator.val))
    else none
  | _ => some (NewValueError ("unknown operator " ++ operator.val))

/-- Operand type conversion phase of operatorExpression.Value
(expression.go).  The outer none models a panic inside intBalance (never
reached from well-typed callers); some (.error e) models returning an
error value; some (.ok ...) carries the re-typed operands. -/
def convertOperands (operator : token) (nargs : Nat) (v1 v2 v3 : Value) :
    Option (Except Value (Value × Value × Value)) :=
  match operator.typ with
  | .tokenNot | .tokenBoolNot =>
    some (.ok ({ v1 with intType := intPromote v1.intType }, v2, v3))
  | .tokenPlus | .tokenMinus =>
    let v1 := { v1 with intType := intPromote v1.intType }
    if nargs = 1 then
      some (.ok (v1, v2, v3))
    else
      match intBalance (intPromote v1.intType) (intPromote v2.intType) with
      | none => none
      | some (t1, t2) =>
        some (.ok ({ v1 with intType := t1 }, { v2 with intType := t2 }, v3))
  | .tokenMult | .tokenDiv | .tokenMod
  | .tokenLess | .tokenLessEqual
  | .tokenGreater | .tokenGreaterEqual
  | .tokenEqual | .tokenNotEqual
  | .tokenAnd | .tokenXor | .tokenOr
  | .tokenBoolAnd | .tokenBoolOr =>
    match intBalance (intPromote v1.intType) (intPromote v2.intType) with
    | none => none
    | some (t1, t2) =>
      some (.ok ({ v1 with intType := t1 }, { v2 with intType := t2 }, v3))
  | .tokenLeftShift | .tokenRightShift =>
    some (.ok ({ v1 with intType := intPromote v1.intType },
      { v2 with intType := intPromote v2.intType }, v3))
  | .tokenQuestion =>
    match intBalance (intPromote v2.intType) (intPromote v3.intType) with
    | none => none
    | some (t2, t3) =>
      some (.ok (v1, { v2 with intType := t2 }, { v3 with intType := t3 }))
  | _ => some (.error (NewValueError ("unknown operator " ++ operator.val)))

/-- Operand evaluation phase of operatorExpression.Value (expression.go).
Division or modulus by zero panics in Go, modelled as none. -/
def evalOperator (operator : token) (nargs : Nat) (v1 v2 v3 : Value) : Option Value :=
  match operator.typ with
  | .tokenPlus =>
    if nargs = 1 then some v1
    else some (newValueIntLike v1 (v1.AsUint64 + v2.AsUint64))
  | .tokenMinus =>
    if nargs = 1 then some (newValueIntLike v1 (neg64 v1.AsUint64))
    else some (newValueIntLike v1 (v1.AsUint64 + neg64 v2.AsUint64))
  | .tokenNot => some (newValueIntLike v1 (compl64 v1.AsUint64))
  | .tokenBoolNot => some (NewValueBool (¬v1.AsBool))
  | .tokenMult => some (newValueIntLike v1 (v1.AsUint64 * v2.AsUint64))
  | .tokenDiv =>
    let (invert1, v1) :=
      if v1.intType.signed ∧ v1.AsInt < 0 then (true, { v1 with intVal := neg64 v1.intVal })
      else (false, v1)
    let (invert, v2) :=
      if v2.intType.signed ∧ v2.AsInt < 0 then (!invert1, { v2 with intVal := neg64 v2.intVal })
      else (invert1, v2)
    if v2.AsUint64 = 0 then none
    else
      let result := v1.AsUint64 / v2.AsUint64
      let result := if invert then neg64 result else result
      some (newValueIntLike v1 result)
  | .tokenMod =>
    let (invert, v1) :=
      if v1.intType.signed ∧ v1.AsInt < 0 then (true, { v1 with intVal := neg64 v1.intVal })
      else (false, v1)
    let v2 :=
      if v2.intType.signed ∧ v2.AsInt < 0 then { v2 with intVal := neg64 v2.intVal } else v2
    if v2.AsUint64 = 0 then none
    else
      let result := v1.AsUint64 % v2.AsUint64
      let result := if invert then neg64 result else result
      some (newValueIntLike v1 result)
  | .tokenLeftShift => some (newValueIntLike v1 ((v1.AsUint64 <<< v2.AsUint64) % 2 ^ 64))
  | .tokenRightShift => some (newValueIntLike v1 (v1.AsUint64 >>> v2.AsUint64))
  | .tokenLess =>
    if v1.intType.signed then some (NewValueBool (v1.AsInt < v2.AsInt))
    else some (NewValueBool (v1.AsUint64 < v2.AsUint64))
  | .tokenLessEqual =>
    if v1.intType.signed then some (NewValueBool (v1.AsInt ≤ v2.AsInt))
    else some (NewValueBool (v1.AsUint64 ≤ v2.AsUint64))
  | .tokenGreater =>
    if v1.intType.signed then some (NewValueBool (v1.AsInt > v2.AsInt))
    else some (NewValueBool (v1.AsUint64 > v2.AsUint64))
  | .tokenGreaterEqual =>
    if v1.intType.signed then some (NewValueBool (v1.AsInt ≥ v2.AsInt))
    else some (NewValueBool (v1.AsUint64 ≥ v2.AsUint64))
  | .tokenEqual => some (NewValueBool (v1.AsUint64 = v2.AsUint64))
  | .tokenNotEqual => some (NewValueBool (v1.AsUint64 ≠ v2.AsUint64))
  | .tokenAnd => some (newValueIntLike v1 (v1.AsUint64 &&& v2.AsUint64))
  | .tokenXor => some (newValueIntLike v1 (v1.AsUint64 ^^^ v2.AsUint64))
  | .tokenOr => some (newValueIntLike v1 (v1.AsUint64 ||| v2.AsUint64))
  | .tokenBoolAnd => some (NewValueBool (v1.AsBool ∧ v2.AsBool))
  | .tokenBoolOr => some (NewValueBool (v1.AsBool ∨ v2.AsBool))
  | .tokenQuestion => some (if v1.AsBool then v2 else v3)
  | _ => some (NewValueError ("unknown operator " ++ operator.val))

/-- Combination of the three phases of operatorExpression.Value, applied
after the arguments have been evaluated. -/
def operatorValue (operator : token) (nargs : Nat) (v1 v2 v3 : Value) : Option Value :=
  match checkOperands operator nargs v1 v2 with
  | some e => some e
  | none =>
    match convertOperands operator nargs v1 v2 v3 with
    | none => none
    | some (.error e) => some e
    | some (.ok (v1, v2, v3)) => evalOperator operator nargs v1 v2 v3

/-- Value method on expressions (expression.go).  Go evaluates at most the
first three arguments, in order, returning the first error value produced;
a panic anywhere propagates (none). -/
def Expression.Value : Expression → Option Value
  | .constant v => some v
  | .operator op [] => operatorValue op 0 nullValue nullValue nullValue
  | .operator op [a1] =>
    match a1.Value with
    | none => none
    | some v1 =>
      if v1.IsError then some v1 else operatorValue op 1 v1 nullValue nullValue
  | .operator op [a1, a2] =>
    match a1.Value with
    | none => none
    | some v1 =>
      if v1.IsError then some v1 else
        match a2.Value with
        | none => none
        | some v2 =>
          if v2.IsError then some v2 else operatorValue op 2 v1 v2 nullValue
  | .operator op (a1 :: a2 :: a3 :: rest) =>
    match a1.Value with
    | none => none
    | some v1 =>
      if v1.IsError then some v1 else
        match a2.Value with
        | none => none
        | some v2 =>
          if v2.IsError then some v2 else
            match a3.Value with
            | none => none
            | some v3 =>
              if v3.IsError then some v3
              else operatorValue op (rest.length + 3) v1 v2 v3
termination_by structural e => e

end Cparse

section CparseChecks

open Cparse

example : Expression.Value (.operator { typ := .tokenPlus, val := "+" }
    [.constant (NewValueInt 0x7fffffff 4 true), .constant (NewValueInt 1 4 false)]) =
    some { typ := .valueInt, intVal := 0x80000000, intType := { size := 4, signed := false } } := by
  decide

end CparseChecks

namespace Cparse

/-! Arithmetic helper lemmas about the bit-level primitives. -/

theorem goMask_eq {w : Nat} (hw : w ≤ 8) : goMask w = 2 ^ (8 * w) - 1 := by
  interval_cases w <;> decide

theorem goSignMask_eq {w : Nat} (h1 : 1 ≤ w) (hw : w ≤ 8) :
    goSignMask w = 2 ^ (8 * w - 1) := by
  interval_cases w <;> decide

theorem intClamp_eq_mod {val w : Nat} {signed : Bool} (hw : w ≤ 8) :
    intClamp val { size := w, signed := signed } = val % 2 ^ (8 * w) := by
  simp only [intClamp, goMask_eq hw]
  exact Nat.and_pow_two_sub_one_eq_mod val (8 * w)

theorem and_two_pow_eq {val k : Nat} :
    val &&& 2 ^ k = if val.testBit k then 2 ^ k else 0 := by
  apply Nat.eq_of_testBit_eq
  intro i
  rcases eq_or_ne i k with rfl | hik
  · simp [Nat.testBit_and, Nat.testBit_two_pow_self]
    rcases hb : val.testBit i <;> simp [hb, Nat.testBit_two_pow_self]
  · simp [Nat.testBit_and, Nat.testBit_two_pow_of_ne (Ne.symm hik)]
    rcases hb : val.testBit k <;> simp [hb, Nat.testBit_two_pow_of_ne (Ne.symm hik)]

theorem testBit_high_of_lt {val w : Nat} (h1 : 1 ≤ w) (hlo : 2 ^ (w - 1) ≤ val)
    (hhi : val < 2 ^ w) : val.testBit (w - 1) = true := by
  have hw : w = (w - 1) + 1 := by omega
  rw [Nat.testBit_to_div_mod]
  have h2 : val < 2 ^ ((w - 1) + 1) := by rw [← hw]; exact hhi
  rw [Nat.pow_succ] at h2
  have hdiv : val / 2 ^ (w - 1) = 1 := by
    refine Nat.div_eq_of_lt_le (by omega) (by omega)
  simp [hdiv]

theorem intSignExtend_unsigned {val w : Nat} :
    intSignExtend val { size := w, signed := false } = val := by
  simp [intSignExtend]

theorem intSignExtend_of_lt {val w : Nat} {signed : Bool} (h1 : 1 ≤ w) (hw : w ≤ 8)
    (h : val < 2 ^ (8 * w - 1)) :
    intSignExtend val { size := w, signed := signed } = val := by
  unfold intSignExtend
  have hm : goSignMask w = 2 ^ (8 * w - 1) := goSignMask_eq h1 hw
  have hb : val.testBit (8 * w - 1) = false := Nat.testBit_lt_two_pow h
  simp [hm, and_two_pow_eq, hb]

theorem intSignExtend_of_ge {val w : Nat} (h1 : 1 ≤ w) (hw : w ≤ 8)
    (hlo : 2 ^ (8 * w - 1) ≤ val) (hhi : val < 2 ^ (8 * w)) :
    intSignExtend val { size := w, signed := true } = (2 ^ 64 - 2 ^ (8 * w)) + val := by
  have hm : goSignMask w = 2 ^ (8 * w - 1) := goSignMask_eq h1 hw
  have hb : val.testBit (8 * w - 1) = true := by
    refine testBit_high_of_lt (by omega) hlo hhi
  have hcompl : compl64 (goMask w) = 2 ^ 64 - 2 ^ (8 * w) := by
    have h2 : (2 : Nat) ^ (8 * w) ≤ 2 ^ 64 := Nat.pow_le_pow_right (by omega) (by omega)
    have h3 : (2 : Nat) ^ (8 * w) ≥ 1 := Nat.one_le_two_pow
    simp only [compl64, goMask_eq hw]
    have h4 : (2 ^ (8 * w) - 1) % 2 ^ 64 = 2 ^ (8 * w) - 1 := Nat.mod_eq_of_lt (by omega)
    omega
  have hsplit : 2 ^ 64 - 2 ^ (8 * w) = 2 ^ (8 * w) * (2 ^ (64 - 8 * w) - 1) := by
    rw [Nat.mul_sub_one]
    rw [← Nat.pow_add]
    have : 8 * w + (64 - 8 * w) = 64 := by omega
    rw [this]
  have hcond : ({ size := w, signed := true } : intType).signed = true ∧
      val &&& goSignMask w ≠ 0 := by
    refine ⟨rfl, ?_⟩
    rw [hm, and_two_pow_eq, hb]
    simp [(Nat.two_pow_pos (8 * w - 1)).ne']
  rw [intSignExtend, if_pos hcond, hcompl, hsplit, Nat.lor_comm,
    ← Nat.mul_add_lt_is_or hhi, Nat.add_comm]

/-! Balancing: the specification's description of intBalance. -/

/-- Description of C balancing taken from the wording of the spec
(specBalance is the spec's sentence, to be compared against intBalance
from the source): identical types stay; same-signedness operands promote
the smaller rank to the larger rank; if the unsigned operand's rank is at
least the signed operand's, the signed side goes unsigned at the larger
width; else if the signed type can represent all values of the unsigned
type, the unsigned side goes signed; else both become unsigned at the
signed side's width. -/
def specBalance (a b : intType) : intType × intType :=
  if a = b then (a, b)
  else if a.signed = b.signed then
    if b.size < a.size then (a, { b with size := a.size })
    else ({ a with size := b.size }, b)
  else
    let s := if a.signed then a else b
    let u := if a.signed then b else a
    let c : intType :=
      if u.size ≥ s.size then { size := u.size, signed := false }
      else if 2 ^ (8 * u.size) - 1 ≤ 2 ^ (8 * s.size - 1) - 1 then
        { size := s.size, signed := true }
      else { size := s.size, signed := false }
    (c, c)

theorem intBalance_eq_spec (a b : intType) (ha1 : 1 ≤ a.size) (ha8 : a.size ≤ 8)
    (hb1 : 1 ≤ b.size) (hb8 : b.size ≤ 8) :
    intBalance a b = some (specBalance a b) := by
  obtain ⟨as, asg⟩ := a
  obtain ⟨bs, bsg⟩ := b
  dsimp only at ha1 ha8 hb1 hb8
  interval_cases as <;> interval_cases bs <;> rcases asg <;> rcases bsg <;> decide

end Cparse

namespace Cparse

/-- Construction of a signed w-byte integer Value carrying the
two's-complement bit pattern of the integer x; used to supply evaluator
inputs in the theorems below. -/
def ofIntSigned (w : Nat) (x : Int) : Value :=
  NewValueInt (x % (2 : Int) ^ 64).toNat w true

theorem ofIntSigned_intVal {w : Nat} {x : Int} :
    (ofIntSigned w x).intVal = (x % (2 : Int) ^ 64).toNat := by
  have h1 : x % (2 : Int) ^ 64 < (2 : Int) ^ 64 := Int.emod_lt_of_pos x (by positivity)
  have h2 : (0 : Int) ≤ x % (2 : Int) ^ 64 := Int.emod_nonneg x (by positivity)
  simp only [ofIntSigned, NewValueInt]
  rw [Nat.mod_eq_of_lt (by omega)]

theorem toInt64_pattern {x : Int} (hlo : -(2 : Int) ^ 63 ≤ x) (hhi : x < 2 ^ 63) :
    toInt64 (x % (2 : Int) ^ 64).toNat = x := by
  have h1 : (0 : Int) ≤ x % (2 : Int) ^ 64 := Int.emod_nonneg x (by positivity)
  have h2 : x % (2 : Int) ^ 64 < (2 : Int) ^ 64 := Int.emod_lt_of_pos x (by positivity)
  have h3 : x % (2 : Int) ^ 64 = x ∨ x % (2 : Int) ^ 64 = x + 2 ^ 64 := by
    rcases Int.le_or_lt 0 x with h | h
    · left
      exact Int.emod_eq_of_lt h (by omega)
    · right
      have := Int.add_mul_emod_self_left (a := x) (b := (2 : Int) ^ 64) (c := 1)
      have h4 : (x + 2 ^ 64) % (2 : Int) ^ 64 = x % (2 : Int) ^ 64 := by
        omega
      rw [← h4]
      refine Int.emod_eq_of_lt (by omega) (by omega)
  unfold toInt64
  rcases h3 with h3 | h3 <;> · rw [h3] at h2 ⊢; omega

end Cparse

section ClaimC1

open Cparse

/-- C1: every binary arithmetic, relational, equality, bitwise or logical
operator (shifts excluded) converts integer operands by C promotion (any
size below 4 becomes 4-byte signed) followed by C balancing as described
by specBalance, and (0x7fffffff as signed 32-bit) + (1 as unsigned 32-bit)
evaluates to the unsigned 32-bit value 0x80000000. -/
theorem c1_promotion_balancing (a b : intType) (ha : a.size ≤ 8) (hb : b.size ≤ 8) :
    (intPromote a = if a.size < 4 then { size := 4, signed := true } else a) ∧
    (intBalance (intPromote a) (intPromote b) =
      some (specBalance (intPromote a) (intPromote b))) ∧
    Expression.Value (.operator { typ := .tokenPlus, val := "+" }
        [.constant (NewValueInt 0x7fffffff 4 true), .constant (NewValueInt 1 4 false)]) =
      some { typ := .valueInt, intVal := 0x80000000, intType := { size := 4, signed := false } } := by
  refine ⟨rfl, ?_, by decide⟩
  have h4 : ∀ t : intType, t.size ≤ 8 → 1 ≤ (intPromote t).size ∧ (intPromote t).size ≤ 8 := by
    intro t ht
    simp only [intPromote, intSize]
    split_ifs with h
    · exact ⟨by decide, by decide⟩
    · exact ⟨by omega, ht⟩
  exact intBalance_eq_spec _ _ (h4 a ha).1 (h4 a ha).2 (h4 b hb).1 (h4 b hb).2

/-- Witness for c1_promotion_balancing at the types of the example. -/
theorem c1_promotion_balancing_witness :
    (intPromote { size := 4, signed := true } =
      if (4 : Nat) < 4 then { size := 4, signed := true } else { size := 4, signed := true }) ∧
    (intBalance (intPromote { size := 4, signed := true })
        (intPromote { size := 4, signed := false }) =
      some (specBalance (intPromote { size := 4, signed := true })
        (intPromote { size := 4, signed := false }))) ∧
    Expression.Value (.operator { typ := .tokenPlus, val := "+" }
        [.constant (NewValueInt 0x7fffffff 4 true), .constant (NewValueInt 1 4 false)]) =
      some { typ := .valueInt, intVal := 0x80000000, intType := { size := 4, signed := false } } :=
  c1_promotion_balancing { size := 4, signed := true } { size := 4, signed := false }
    (by decide) (by decide)

end ClaimC1

namespace Cparse

theorem value_two (op : token) (v1 v2 : Value) (h1 : v1.IsError = false)
    (h2 : v2.IsError = false) :
    Expression.Value (.operator op [.constant v1, .constant v2]) =
      operatorValue op 2 v1 v2 nullValue := by
  simp [Expression.Value, h1, h2]

theorem intBalance_self (t : intType) : intBalance t t = some (t, t) := by
  simp [intBalance]

theorem neg_tmod_left (a b : Int) : (-a).tmod b = -(a.tmod b) := by
  rw [Int.tmod_def, Int.tmod_def, Int.neg_tdiv]
  ring

theorem intClamp_eq_mod' (w : Nat) (hw : w ≤ 8) (val : Nat) (signed : Bool) :
    intClamp val { size := w, signed := signed } = val % 2 ^ (8 * w) :=
  intClamp_eq_mod hw

theorem intSignExtend_of_lt' (w : Nat) (h1 : 1 ≤ w) (hw : w ≤ 8) (val : Nat)
    (signed : Bool) (h : val < 2 ^ (8 * w - 1)) :
    intSignExtend val { size := w, signed := signed } = val :=
  intSignExtend_of_lt h1 hw h

theorem intSignExtend_of_ge' (w : Nat) (h1 : 1 ≤ w) (hw : w ≤ 8) (val : Nat)
    (hlo : 2 ^ (8 * w - 1) ≤ val) (hhi : val < 2 ^ (8 * w)) :
    intSignExtend val { size := w, signed := true } = (2 ^ 64 - 2 ^ (8 * w)) + val :=
  intSignExtend_of_ge h1 hw hlo hhi

theorem ofIntSigned_typ {w : Nat} {x : Int} : (ofIntSigned w x).typ = .valueInt := rfl

theorem ofIntSigned_stringVal {w : Nat} {x : Int} : (ofIntSigned w x).stringVal = "" := rfl

theorem ofIntSigned_intType {w : Nat} {x : Int} :
    (ofIntSigned w x).intType = { size := w, signed := true } := rfl

theorem ofIntSigned_AsInt {w : Nat} {x : Int} (h1 : 1 ≤ w) (h8 : w ≤ 8)
    (hx1 : -(2:Int)^(8*w-1) ≤ x) (hx2 : x < (2:Int)^(8*w-1)) :
    (ofIntSigned w x).AsInt = x := by
  rw [Value.AsInt, ofIntSigned_intVal]
  have hle : (2:Int)^(8*w-1) ≤ (2:Int)^63 := by
    refine pow_le_pow_right₀ (by omega) (by omega)
  exact toInt64_pattern (by omega) (by omega)

theorem checkOperands_divmod (tt : tokenType) (htt : tt = .tokenDiv ∨ tt = .tokenMod)
    (p : Nat) (s : String) (v1 v2 : Value) (h1 : v1.IsInt = true) (h2 : v2.IsInt = true) :
    checkOperands { typ := tt, pos := p, val := s } 2 v1 v2 = none := by
  rcases htt with rfl | rfl <;> simp [checkOperands, h1, h2]

theorem convertOperands_divmod (tt : tokenType) (htt : tt = .tokenDiv ∨ tt = .tokenMod)
    (p : Nat) (s : String) (w : Nat) (hw : w = 4 ∨ w = 8) (x y : Int) (v3 : Value) :
    convertOperands { typ := tt, pos := p, val := s } 2
        (ofIntSigned w x) (ofIntSigned w y) v3 =
      some (.ok (ofIntSigned w x, ofIntSigned w y, v3)) := by
  rcases htt with rfl | rfl <;> rcases hw with rfl | rfl <;> rfl

end Cparse

namespace Cparse

theorem tdiv_cast_nonneg_nonneg {x y : Int} (hx : 0 ≤ x) (hy : 0 ≤ y) :
    x.tdiv y = ((x.natAbs / y.natAbs : Nat) : Int) := by
  obtain ⟨m, rfl⟩ := Int.eq_ofNat_of_zero_le hx
  obtain ⟨n, rfl⟩ := Int.eq_ofNat_of_zero_le hy
  rw [← Int.ofNat_tdiv]
  simp

theorem tdiv_cast_nonneg_neg {x y : Int} (hx : 0 ≤ x) (hy : y < 0) :
    x.tdiv y = -((x.natAbs / y.natAbs : Nat) : Int) := by
  obtain ⟨m, rfl⟩ := Int.eq_ofNat_of_zero_le hx
  obtain ⟨n, hn⟩ : ∃ n : Nat, y = -(n : Int) := ⟨y.natAbs, by omega⟩
  subst hn
  rw [Int.tdiv_neg, ← Int.ofNat_tdiv]
  simp

theorem tdiv_cast_neg_nonneg {x y : Int} (hx : x < 0) (hy : 0 ≤ y) :
    x.tdiv y = -((x.natAbs / y.natAbs : Nat) : Int) := by
  obtain ⟨m, hm⟩ : ∃ m : Nat, x = -(m : Int) := ⟨x.natAbs, by omega⟩
  obtain ⟨n, rfl⟩ := Int.eq_ofNat_of_zero_le hy
  subst hm
  rw [Int.neg_tdiv, ← Int.ofNat_tdiv]
  simp

theorem tdiv_cast_neg_neg {x y : Int} (hx : x < 0) (hy : y < 0) :
    x.tdiv y = ((x.natAbs / y.natAbs : Nat) : Int) := by
  obtain ⟨m, hm⟩ : ∃ m : Nat, x = -(m : Int) := ⟨x.natAbs, by omega⟩
  obtain ⟨n, hn⟩ : ∃ n : Nat, y = -(n : Int) := ⟨y.natAbs, by omega⟩
  subst hm
  subst hn
  rw [Int.neg_tdiv_neg, ← Int.ofNat_tdiv]
  simp

theorem tmod_cast_nonneg {x y : Int} (hx : 0 ≤ x) :
    x.tmod y = ((x.natAbs % y.natAbs : Nat) : Int) := by
  obtain ⟨m, rfl⟩ := Int.eq_ofNat_of_zero_le hx
  rcases Int.le_or_lt 0 y with hy | hy
  · obtain ⟨n, rfl⟩ := Int.eq_ofNat_of_zero_le hy
    rw [← Int.ofNat_tmod]
    simp
  · obtain ⟨n, hn⟩ : ∃ n : Nat, y = -(n : Int) := ⟨y.natAbs, by omega⟩
    subst hn
    rw [Int.tmod_neg, ← Int.ofNat_tmod]
    simp

theorem tmod_cast_neg {x y : Int} (hx : x < 0) :
    x.tmod y = -((x.natAbs % y.natAbs : Nat) : Int) := by
  obtain ⟨m, hm⟩ : ∃ m : Nat, x = -(m : Int) := ⟨x.natAbs, by omega⟩
  subst hm
  rw [neg_tmod_left]
  rcases Int.le_or_lt 0 y with hy | hy
  · obtain ⟨n, rfl⟩ := Int.eq_ofNat_of_zero_le hy
    rw [← Int.ofNat_tmod]
    simp
  · obtain ⟨n, hn⟩ : ∃ n : Nat, y = -(n : Int) := ⟨y.natAbs, by omega⟩
    subst hn
    rw [Int.tmod_neg, ← Int.ofNat_tmod]
    simp

end Cparse

namespace Cparse

theorem evalValue_div_signed (s : String) (w : Nat) (hw : w = 4 ∨ w = 8) (x y : Int)
    (hx1 : -(2:Int)^(8*w-1) ≤ x) (hx2 : x < (2:Int)^(8*w-1))
    (hy1 : -(2:Int)^(8*w-1) ≤ y) (hy2 : y < (2:Int)^(8*w-1))
    (hy0 : y ≠ 0) (hc : ¬(x = -((2:Int)^(8*w-1)) ∧ y = -1)) :
    Expression.Value (.operator { typ := .tokenDiv, pos := 0, val := s }
        [.constant (ofIntSigned w x), .constant (ofIntSigned w y)]) =
      some (ofIntSigned w (x.tdiv y)) := by
  have h1w : 1 ≤ w := by rcases hw with rfl | rfl <;> omega
  have h8w : w ≤ 8 := by rcases hw with rfl | rfl <;> omega
  have hAx : (ofIntSigned w x).AsInt = x := ofIntSigned_AsInt h1w h8w hx1 hx2
  have hAy : (ofIntSigned w y).AsInt = y := ofIntSigned_AsInt h1w h8w hy1 hy2
  have hvx : (ofIntSigned w x).intVal = (x % (2:Int) ^ 64).toNat := ofIntSigned_intVal
  have hvy : (ofIntSigned w y).intVal = (y % (2:Int) ^ 64).toNat := ofIntSigned_intVal
  have hq : x.natAbs / y.natAbs ≤ x.natAbs := Nat.div_le_self _ _
  rw [value_two { typ := .tokenDiv, pos := 0, val := s } (ofIntSigned w x)
    (ofIntSigned w y) rfl rfl]
  rw [operatorValue,
    checkOperands_divmod _ (Or.inl rfl) 0 s (ofIntSigned w x) (ofIntSigned w y) rfl rfl,
    convertOperands_divmod _ (Or.inl rfl) 0 s w hw x y nullValue]
  rcases hw with rfl | rfl
  · simp only [evalOperator, hAx, hAy,
      ofIntSigned_typ, ofIntSigned_stringVal, ofIntSigned_intType, hvx, hvy, true_and]
    rcases Int.le_or_lt 0 x with hx | hx <;> rcases Int.lt_or_lt_of_ne hy0 with hy | hy
    -- case x >= 0, y < 0: invert
    · simp only [if_neg (by omega : ¬ x < 0), if_pos hy, Bool.not_false, if_true]
      simp only [Value.AsUint64, ofIntSigned_intType, hvx, ofIntSigned_intVal,
        intClamp_eq_mod' _ h8w, neg64]
      simp only [show ((x % 2 ^ 64).toNat : Nat) % 2 ^ (8 * 4) = x.natAbs from by omega,
        show (2 ^ 64 - (y % 2 ^ 64).toNat % 2 ^ 64) % 2 ^ 64 % 2 ^ (8 * 4) = y.natAbs
          from by omega,
        if_neg (by omega : ¬ y.natAbs = 0),
        tdiv_cast_nonneg_neg hx hy]
      simp only [newValueIntLike, ofIntSigned, NewValueInt, intClamp_eq_mod' _ h8w,
        Option.some.injEq, Value.mk.injEq]
      refine ⟨trivial, trivial, ?_, trivial⟩
      have hxa : x.natAbs ≤ 2 ^ (8 * 4 - 1) := by omega
      have hql : x.natAbs / y.natAbs ≤ 2 ^ (8 * 4 - 1) := le_trans hq hxa
      generalize hgen : x.natAbs / y.natAbs = q at hql ⊢
      rcases Nat.eq_zero_or_pos q with hq0 | hq0
      · rw [show (2 ^ 64 - q % 2 ^ 64) % 2 ^ 64 % 2 ^ 64 % 2 ^ (8 * 4) = 0 from by omega]
        rw [intSignExtend_of_lt' _ h1w h8w _ _ (by omega)]
        omega
      · rw [show (2 ^ 64 - q % 2 ^ 64) % 2 ^ 64 % 2 ^ 64 % 2 ^ (8 * 4) = 2 ^ (8 * 4) - q
          from by omega]
        rw [intSignExtend_of_ge' _ h1w h8w _ (by omega) (by omega)]
        omega
    -- case x >= 0, y > 0: no inversion
    · simp only [if_neg (by omega : ¬ x < 0), if_neg (by omega : ¬ y < 0),
        Bool.false_eq_true, if_false]
      simp only [Value.AsUint64, ofIntSigned_intType, hvx, hvy, ofIntSigned_intVal,
        intClamp_eq_mod' _ h8w]
      simp only [show ((x % 2 ^ 64).toNat : Nat) % 2 ^ (8 * 4) = x.natAbs from by omega,
        show ((y % 2 ^ 64).toNat : Nat) % 2 ^ (8 * 4) = y.natAbs from by omega,
        if_neg (by omega : ¬ y.natAbs = 0),
        tdiv_cast_nonneg_nonneg hx (by omega : (0:Int) ≤ y)]
      simp only [newValueIntLike, ofIntSigned, NewValueInt, intClamp_eq_mod' _ h8w,
        Option.some.injEq, Value.mk.injEq]
      refine ⟨trivial, trivial, ?_, trivial⟩
      have hxa : x.natAbs < 2 ^ (8 * 4 - 1) := by omega
      have hql : x.natAbs / y.natAbs < 2 ^ (8 * 4 - 1) := Nat.lt_of_le_of_lt hq hxa
      generalize hgen : x.natAbs / y.natAbs = q at hql ⊢
      rw [show q % 2 ^ 64 % 2 ^ (8 * 4) = q from by omega]
      rw [intSignExtend_of_lt' _ h1w h8w _ _ (by omega)]
      omega
    -- case x < 0, y < 0: double inversion cancels
    · simp only [if_pos hx, if_pos hy, Bool.not_true, Bool.false_eq_true, if_false]
      simp only [Value.AsUint64, intClamp_eq_mod' _ h8w, neg64]
      simp only [show (2 ^ 64 - (x % 2 ^ 64).toNat % 2 ^ 64) % 2 ^ 64 % 2 ^ (8 * 4) = x.natAbs
          from by omega,
        show (2 ^ 64 - (y % 2 ^ 64).toNat % 2 ^ 64) % 2 ^ 64 % 2 ^ (8 * 4) = y.natAbs
          from by omega,
        if_neg (by omega : ¬ y.natAbs = 0),
        tdiv_cast_neg_neg hx hy]
      simp only [newValueIntLike, ofIntSigned, NewValueInt, intClamp_eq_mod' _ h8w,
        Option.some.injEq, Value.mk.injEq]
      refine ⟨trivial, trivial, ?_, trivial⟩
      have hqlt : x.natAbs / y.natAbs < 2 ^ (8 * 4 - 1) := by
        rcases Nat.lt_or_ge y.natAbs 2 with hn | hn
        · have h1 : y.natAbs = 1 := by omega
          have h2 : x.natAbs / y.natAbs = x.natAbs := by rw [h1, Nat.div_one]
          have h3 : ¬(x = -2 ^ (8 * 4 - 1) ∧ y = -1) := hc
          omega
        · have h2 : x.natAbs / y.natAbs ≤ x.natAbs / 2 := Nat.div_le_div_left hn (by omega)
          omega
      generalize hgen : x.natAbs / y.natAbs = q at hqlt ⊢
      rw [show q % 2 ^ 64 % 2 ^ (8 * 4) = q from by omega]
      rw [intSignExtend_of_lt' _ h1w h8w _ _ (by omega)]
      omega
    -- case x < 0, y > 0: invert
    · simp only [if_pos hx, if_neg (by omega : ¬ y < 0), if_true]
      simp only [Value.AsUint64, ofIntSigned_intType, hvy, ofIntSigned_intVal,
        intClamp_eq_mod' _ h8w, neg64]
      simp only [show (2 ^ 64 - (x % 2 ^ 64).toNat % 2 ^ 64) % 2 ^ 64 % 2 ^ (8 * 4) = x.natAbs
          from by omega,
        show ((y % 2 ^ 64).toNat : Nat) % 2 ^ (8 * 4) = y.natAbs from by omega,
        if_neg (by omega : ¬ y.natAbs = 0),
        tdiv_cast_neg_nonneg hx (by omega : (0:Int) ≤ y)]
      simp only [newValueIntLike, ofIntSigned, NewValueInt, intClamp_eq_mod' _ h8w,
        Option.some.injEq, Value.mk.injEq]
      refine ⟨trivial, trivial, ?_, trivial⟩
      have hxa : x.natAbs ≤ 2 ^ (8 * 4 - 1) := by omega
      have hql : x.natAbs / y.natAbs ≤ 2 ^ (8 * 4 - 1) := le_trans hq hxa
      generalize hgen : x.natAbs / y.natAbs = q at hql ⊢
      rcases Nat.eq_zero_or_pos q with hq0 | hq0
      · rw [show (2 ^ 64 - q % 2 ^ 64) % 2 ^ 64 % 2 ^ 64 % 2 ^ (8 * 4) = 0 from by omega]
        rw [intSignExtend_of_lt' _ h1w h8w _ _ (by omega)]
        omega
      · rw [show (2 ^ 64 - q % 2 ^ 64) % 2 ^ 64 % 2 ^ 64 % 2 ^ (8 * 4) = 2 ^ (8 * 4) - q
          from by omega]
        rw [intSignExtend_of_ge' _ h1w h8w _ (by omega) (by omega)]
        omega
  · simp only [evalOperator, hAx, hAy,
      ofIntSigned_typ, ofIntSigned_stringVal, ofIntSigned_intType, hvx, hvy, true_and]
    rcases Int.le_or_lt 0 x with hx | hx <;> rcases Int.lt_or_lt_of_ne hy0 with hy | hy
    -- case x >= 0, y < 0: invert
    · simp only [if_neg (by omega : ¬ x < 0), if_pos hy, Bool.not_false, if_true]
      simp only [Value.AsUint64, ofIntSigned_intType, hvx, ofIntSigned_intVal,
        intClamp_eq_mod' _ h8w, neg64]
      simp only [show ((x % 2 ^ 64).toNat : Nat) % 2 ^ (8 * 8) = x.natAbs from by omega,
        show (2 ^ 64 - (y % 2 ^ 64).toNat % 2 ^ 64) % 2 ^ 64 % 2 ^ (8 * 8) = y.natAbs
          from by omega,
        if_neg (by omega : ¬ y.natAbs = 0),
        tdiv_cast_nonneg_neg hx hy]
      simp only [newValueIntLike, ofIntSigned, NewValueInt, intClamp_eq_mod' _ h8w,
        Option.some.injEq, Value.mk.injEq]
      refine ⟨trivial, trivial, ?_, trivial⟩
      have hxa : x.natAbs ≤ 2 ^ (8 * 8 - 1) := by omega
      have hql : x.natAbs / y.natAbs ≤ 2 ^ (8 * 8 - 1) := le_trans hq hxa
      generalize hgen : x.natAbs / y.natAbs = q at hql ⊢
      rcases Nat.eq_zero_or_pos q with hq0 | hq0
      · rw [show (2 ^ 64 - q % 2 ^ 64) % 2 ^ 64 % 2 ^ 64 % 2 ^ (8 * 8) = 0 from by omega]
        rw [intSignExtend_of_lt' _ h1w h8w _ _ (by omega)]
        omega
      · rw [show (2 ^ 64 - q % 2 ^ 64) % 2 ^ 64 % 2 ^ 64 % 2 ^ (8 * 8) = 2 ^ (8 * 8) - q
          from by omega]
        rw [intSignExtend_of_ge' _ h1w h8w _ (by omega) (by omega)]
        omega
    -- case x >= 0, y > 0: no inversion
    · simp only [if_neg (by omega : ¬ x < 0), if_neg (by omega : ¬ y < 0),
        Bool.false_eq_true, if_false]
      simp only [Value.AsUint64, ofIntSigned_intType, hvx, hvy, ofIntSigned_intVal,
        intClamp_eq_mod' _ h8w]
      simp only [show ((x % 2 ^ 64).toNat : Nat) % 2 ^ (8 * 8) = x.natAbs from by omega,
        show ((y % 2 ^ 64).toNat : Nat) % 2 ^ (8 * 8) = y.natAbs from by omega,
        if_neg (by omega : ¬ y.natAbs = 0),
        tdiv_cast_nonneg_nonneg hx (by omega : (0:Int) ≤ y)]
      simp only [newValueIntLike, ofIntSigned, NewValueInt, intClamp_eq_mod' _ h8w,
        Option.some.injEq, Value.mk.injEq]
      refine ⟨trivial, trivial, ?_, trivial⟩
      have hxa : x.natAbs < 2 ^ (8 * 8 - 1) := by omega
      have hql : x.natAbs / y.natAbs < 2 ^ (8 * 8 - 1) := Nat.lt_of_le_of_lt hq hxa
      generalize hgen : x.natAbs / y.natAbs = q at hql ⊢
      rw [show q % 2 ^ 64 % 2 ^ (8 * 8) = q from by omega]
      rw [intSignExtend_of_lt' _ h1w h8w _ _ (by omega)]
      omega
    -- case x < 0, y < 0: double inversion cancels
    · simp only [if_pos hx, if_pos hy, Bool.not_true, Bool.false_eq_true, if_false]
      simp only [Value.AsUint64, intClamp_eq_mod' _ h8w, neg64]
      simp only [show (2 ^ 64 - (x % 2 ^ 64).toNat % 2 ^ 64) % 2 ^ 64 % 2 ^ (8 * 8) = x.natAbs
          from by omega,
        show (2 ^ 64 - (y % 2 ^ 64).toNat % 2 ^ 64) % 2 ^ 64 % 2 ^ (8 * 8) = y.natAbs
          from by omega,
        if_neg (by omega : ¬ y.natAbs = 0),
        tdiv_cast_neg_neg hx hy]
      simp only [newValueIntLike, ofIntSigned, NewValueInt, intClamp_eq_mod' _ h8w,
        Option.some.injEq, Value.mk.injEq]
      refine ⟨trivial, trivial, ?_, trivial⟩
      have hqlt : x.natAbs / y.natAbs < 2 ^ (8 * 8 - 1) := by
        rcases Nat.lt_or_ge y.natAbs 2 with hn | hn
        · have h1 : y.natAbs = 1 := by omega
          have h2 : x.natAbs / y.natAbs = x.natAbs := by rw [h1, Nat.div_one]
          have h3 : ¬(x = -2 ^ (8 * 8 - 1) ∧ y = -1) := hc
          omega
        · have h2 : x.natAbs / y.natAbs ≤ x.natAbs / 2 := Nat.div_le_div_left hn (by omega)
          omega
      generalize hgen : x.natAbs / y.natAbs = q at hqlt ⊢
      rw [show q % 2 ^ 64 % 2 ^ (8 * 8) = q from by omega]
      rw [intSignExtend_of_lt' _ h1w h8w _ _ (by omega)]
      omega
    -- case x < 0, y > 0: invert
    · simp only [if_pos hx, if_neg (by omega : ¬ y < 0), if_true]
      simp only [Value.AsUint64, ofIntSigned_intType, hvy, ofIntSigned_intVal,
        intClamp_eq_mod' _ h8w, neg64]
      simp only [show (2 ^ 64 - (x % 2 ^ 64).toNat % 2 ^ 64) % 2 ^ 64 % 2 ^ (8 * 8) = x.natAbs
          from by omega,
        show ((y % 2 ^ 64).toNat : Nat) % 2 ^ (8 * 8) = y.natAbs from by omega,
        if_neg (by omega : ¬ y.natAbs = 0),
        tdiv_cast_neg_nonneg hx (by omega : (0:Int) ≤ y)]
      simp only [newValueIntLike, ofIntSigned, NewValueInt, intClamp_eq_mod' _ h8w,
        Option.some.injEq, Value.mk.injEq]
      refine ⟨trivial, trivial, ?_, trivial⟩
      have hxa : x.natAbs ≤ 2 ^ (8 * 8 - 1) := by omega
      have hql : x.natAbs / y.natAbs ≤ 2 ^ (8 * 8 - 1) := le_trans hq hxa
      generalize hgen : x.natAbs / y.natAbs = q at hql ⊢
      rcases Nat.eq_zero_or_pos q with hq0 | hq0
      · rw [show (2 ^ 64 - q % 2 ^ 64) % 2 ^ 64 % 2 ^ 64 % 2 ^ (8 * 8) = 0 from by omega]
        rw [intSignExtend_of_lt' _ h1w h8w _ _ (by omega)]
        omega
      · rw [show (2 ^ 64 - q % 2 ^ 64) % 2 ^ 64 % 2 ^ 64 % 2 ^ (8 * 8) = 2 ^ (8 * 8) - q
          from by omega]
        rw [intSignExtend_of_ge' _ h1w h8w _ (by omega) (by omega)]
        omega

theorem evalValue_mod_signed (s : String) (w : Nat) (hw : w = 4 ∨ w = 8) (x y : Int)
    (hx1 : -(2:Int)^(8*w-1) ≤ x) (hx2 : x < (2:Int)^(8*w-1))
    (hy1 : -(2:Int)^(8*w-1) ≤ y) (hy2 : y < (2:Int)^(8*w-1))
    (hy0 : y ≠ 0) :
    Expression.Value (.operator { typ := .tokenMod, pos := 0, val := s }
        [.constant (ofIntSigned w x), .constant (ofIntSigned w y)]) =
      some (ofIntSigned w (x.tmod y)) := by
  have h1w : 1 ≤ w := by rcases hw with rfl | rfl <;> omega
  have h8w : w ≤ 8 := by rcases hw with rfl | rfl <;> omega
  have hAx : (ofIntSigned w x).AsInt = x := ofIntSigned_AsInt h1w h8w hx1 hx2
  have hAy : (ofIntSigned w y).AsInt = y := ofIntSigned_AsInt h1w h8w hy1 hy2
  have hvx : (ofIntSigned w x).intVal = (x % (2:Int) ^ 64).toNat := ofIntSigned_intVal
  have hvy : (ofIntSigned w y).intVal = (y % (2:Int) ^ 64).toNat := ofIntSigned_intVal
  have hr : x.natAbs % y.natAbs < y.natAbs := Nat.mod_lt _ (by omega)
  rw [value_two { typ := .tokenMod, pos := 0, val := s } (ofIntSigned w x)
    (ofIntSigned w y) rfl rfl]
  rw [operatorValue,
    checkOperands_divmod _ (Or.inr rfl) 0 s (ofIntSigned w x) (ofIntSigned w y) rfl rfl,
    convertOperands_divmod _ (Or.inr rfl) 0 s w hw x y nullValue]
  rcases hw with rfl | rfl
  · simp only [evalOperator, hAx, hAy,
      ofIntSigned_typ, ofIntSigned_stringVal, ofIntSigned_intType, hvx, hvy, true_and]
    have hrl : x.natAbs % y.natAbs < 2 ^ (8 * 4 - 1) := by omega
    rcases Int.le_or_lt 0 x with hx | hx <;> rcases Int.lt_or_lt_of_ne hy0 with hy | hy
    -- case x >= 0, y < 0: no inversion, negated divisor
    · simp only [if_neg (by omega : ¬ x < 0), if_pos hy, Bool.false_eq_true, if_false]
      simp only [Value.AsUint64, ofIntSigned_intType, hvx, ofIntSigned_intVal,
        intClamp_eq_mod' _ h8w, neg64]
      simp only [show ((x % 2 ^ 64).toNat : Nat) % 2 ^ (8 * 4) = x.natAbs from by omega,
        show (2 ^ 64 - (y % 2 ^ 64).toNat % 2 ^ 64) % 2 ^ 64 % 2 ^ (8 * 4) = y.natAbs
          from by omega,
        if_neg (by omega : ¬ y.natAbs = 0),
        tmod_cast_nonneg hx]
      simp only [newValueIntLike, ofIntSigned, NewValueInt, intClamp_eq_mod' _ h8w,
        Option.some.injEq, Value.mk.injEq]
      refine ⟨trivial, trivial, ?_, trivial⟩
      generalize hgen : x.natAbs % y.natAbs = r at hrl ⊢
      rw [show r % 2 ^ 64 % 2 ^ (8 * 4) = r from by omega]
      rw [intSignExtend_of_lt' _ h1w h8w _ _ (by omega)]
      omega
    -- case x >= 0, y > 0: no inversion
    · simp only [if_neg (by omega : ¬ x < 0), if_neg (by omega : ¬ y < 0),
        Bool.false_eq_true, if_false]
      simp only [Value.AsUint64, ofIntSigned_intType, hvx, hvy, ofIntSigned_intVal,
        intClamp_eq_mod' _ h8w]
      simp only [show ((x % 2 ^ 64).toNat : Nat) % 2 ^ (8 * 4) = x.natAbs from by omega,
        show ((y % 2 ^ 64).toNat : Nat) % 2 ^ (8 * 4) = y.natAbs from by omega,
        if_neg (by omega : ¬ y.natAbs = 0),
        tmod_cast_nonneg hx]
      simp only [newValueIntLike, ofIntSigned, NewValueInt, intClamp_eq_mod' _ h8w,
        Option.some.injEq, Value.mk.injEq]
      refine ⟨trivial, trivial, ?_, trivial⟩
      generalize hgen : x.natAbs % y.natAbs = r at hrl ⊢
      rw [show r % 2 ^ 64 % 2 ^ (8 * 4) = r from by omega]
      rw [intSignExtend_of_lt' _ h1w h8w _ _ (by omega)]
      omega
    -- case x < 0, y < 0: inversion, negated divisor
    · simp only [if_pos hx, if_pos hy, if_true]
      simp only [Value.AsUint64, intClamp_eq_mod' _ h8w, neg64]
      simp only [show (2 ^ 64 - (x % 2 ^ 64).toNat % 2 ^ 64) % 2 ^ 64 % 2 ^ (8 * 4) = x.natAbs
          from by omega,
        show (2 ^ 64 - (y % 2 ^ 64).toNat % 2 ^ 64) % 2 ^ 64 % 2 ^ (8 * 4) = y.natAbs
          from by omega,
        if_neg (by omega : ¬ y.natAbs = 0),
        tmod_cast_neg hx]
      simp only [newValueIntLike, ofIntSigned, NewValueInt, intClamp_eq_mod' _ h8w,
        Option.some.injEq, Value.mk.injEq]
      refine ⟨trivial, trivial, ?_, trivial⟩
      generalize hgen : x.natAbs % y.natAbs = r at hrl ⊢
      rcases Nat.eq_zero_or_pos r with hr0 | hr0
      · rw [show (2 ^ 64 - r % 2 ^ 64) % 2 ^ 64 % 2 ^ 64 % 2 ^ (8 * 4) = 0 from by omega]
        rw [intSignExtend_of_lt' _ h1w h8w _ _ (by omega)]
        omega
      · rw [show (2 ^ 64 - r % 2 ^ 64) % 2 ^ 64 % 2 ^ 64 % 2 ^ (8 * 4) = 2 ^ (8 * 4) - r
          from by omega]
        rw [intSignExtend_of_ge' _ h1w h8w _ (by omega) (by omega)]
        omega
    -- case x < 0, y > 0: inversion
    · simp only [if_pos hx, if_neg (by omega : ¬ y < 0), if_true]
      simp only [Value.AsUint64, ofIntSigned_intType, hvy, ofIntSigned_intVal,
        intClamp_eq_mod' _ h8w, neg64]
      simp only [show (2 ^ 64 - (x % 2 ^ 64).toNat % 2 ^ 64) % 2 ^ 64 % 2 ^ (8 * 4) = x.natAbs
          from by omega,
        show ((y % 2 ^ 64).toNat : Nat) % 2 ^ (8 * 4) = y.natAbs from by omega,
        if_neg (by omega : ¬ y.natAbs = 0),
        tmod_cast_neg hx]
      simp only [newValueIntLike, ofIntSigned, NewValueInt, intClamp_eq_mod' _ h8w,
        Option.some.injEq, Value.mk.injEq]
      refine ⟨trivial, trivial, ?_, trivial⟩
      generalize hgen : x.natAbs % y.natAbs = r at hrl ⊢
      rcases Nat.eq_zero_or_pos r with hr0 | hr0
      · rw [show (2 ^ 64 - r % 2 ^ 64) % 2 ^ 64 % 2 ^ 64 % 2 ^ (8 * 4) = 0 from by omega]
        rw [intSignExtend_of_lt' _ h1w h8w _ _ (by omega)]
        omega
      · rw [show (2 ^ 64 - r % 2 ^ 64) % 2 ^ 64 % 2 ^ 64 % 2 ^ (8 * 4) = 2 ^ (8 * 4) - r
          from by omega]
        rw [intSignExtend_of_ge' _ h1w h8w _ (by omega) (by omega)]
        omega
  · simp only [evalOperator, hAx, hAy,
      ofIntSigned_typ, ofIntSigned_stringVal, ofIntSigned_intType, hvx, hvy, true_and]
    have hrl : x.natAbs % y.natAbs < 2 ^ (8 * 8 - 1) := by omega
    rcases Int.le_or_lt 0 x with hx | hx <;> rcases Int.lt_or_lt_of_ne hy0 with hy | hy
    -- case x >= 0, y < 0: no inversion, negated divisor
    · simp only [if_neg (by omega : ¬ x < 0), if_pos hy, Bool.false_eq_true, if_false]
      simp only [Value.AsUint64, ofIntSigned_intType, hvx, ofIntSigned_intVal,
        intClamp_eq_mod' _ h8w, neg64]
      simp only [show ((x % 2 ^ 64).toNat : Nat) % 2 ^ (8 * 8) = x.natAbs from by omega,
        show (2 ^ 64 - (y % 2 ^ 64).toNat % 2 ^ 64) % 2 ^ 64 % 2 ^ (8 * 8) = y.natAbs
          from by omega,
        if_neg (by omega : ¬ y.natAbs = 0),
        tmod_cast_nonneg hx]
      simp only [newValueIntLike, ofIntSigned, NewValueInt, intClamp_eq_mod' _ h8w,
        Option.some.injEq, Value.mk.injEq]
      refine ⟨trivial, trivial, ?_, trivial⟩
      generalize hgen : x.natAbs % y.natAbs = r at hrl ⊢
      rw [show r % 2 ^ 64 % 2 ^ (8 * 8) = r from by omega]
      rw [intSignExtend_of_lt' _ h1w h8w _ _ (by omega)]
      omega
    -- case x >= 0, y > 0: no inversion
    · simp only [if_neg (by omega : ¬ x < 0), if_neg (by omega : ¬ y < 0),
        Bool.false_eq_true, if_false]
      simp only [Value.AsUint64, ofIntSigned_intType, hvx, hvy, ofIntSigned_intVal,
        intClamp_eq_mod' _ h8w]
      simp only [show ((x % 2 ^ 64).toNat : Nat) % 2 ^ (8 * 8) = x.natAbs from by omega,
        show ((y % 2 ^ 64).toNat : Nat) % 2 ^ (8 * 8) = y.natAbs from by omega,
        if_neg (by omega : ¬ y.natAbs = 0),
        tmod_cast_nonneg hx]
      simp only [newValueIntLike, ofIntSigned, NewValueInt, intClamp_eq_mod' _ h8w,
        Option.some.injEq, Value.mk.injEq]
      refine ⟨trivial, trivial, ?_, trivial⟩
      generalize hgen : x.natAbs % y.natAbs = r at hrl ⊢
      rw [show r % 2 ^ 64 % 2 ^ (8 * 8) = r from by omega]
      rw [intSignExtend_of_lt' _ h1w h8w _ _ (by omega)]
      omega
    -- case x < 0, y < 0: inversion, negated divisor
    · simp only [if_pos hx, if_pos hy, if_true]
      simp only [Value.AsUint64, intClamp_eq_mod' _ h8w, neg64]
      simp only [show (2 ^ 64 - (x % 2 ^ 64).toNat % 2 ^ 64) % 2 ^ 64 % 2 ^ (8 * 8) = x.natAbs
          from by omega,
        show (2 ^ 64 - (y % 2 ^ 64).toNat % 2 ^ 64) % 2 ^ 64 % 2 ^ (8 * 8) = y.natAbs
          from by omega,
        if_neg (by omega : ¬ y.natAbs = 0),
        tmod_cast_neg hx]
      simp only [newValueIntLike, ofIntSigned, NewValueInt, intClamp_eq_mod' _ h8w,
        Option.some.injEq, Value.mk.injEq]
      refine ⟨trivial, trivial, ?_, trivial⟩
      generalize hgen : x.natAbs % y.natAbs = r at hrl ⊢
      rcases Nat.eq_zero_or_pos r with hr0 | hr0
      · rw [show (2 ^ 64 - r % 2 ^ 64) % 2 ^ 64 % 2 ^ 64 % 2 ^ (8 * 8) = 0 from by omega]
        rw [intSignExtend_of_lt' _ h1w h8w _ _ (by omega)]
        omega
      · rw [show (2 ^ 64 - r % 2 ^ 64) % 2 ^ 64 % 2 ^ 64 % 2 ^ (8 * 8) = 2 ^ (8 * 8) - r
          from by omega]
        rw [intSignExtend_of_ge' _ h1w h8w _ (by omega) (by omega)]
        omega
    -- case x < 0, y > 0: inversion
    · simp only [if_pos hx, if_neg (by omega : ¬ y < 0), if_true]
      simp only [Value.AsUint64, ofIntSigned_intType, hvy, ofIntSigned_intVal,
        intClamp_eq_mod' _ h8w, neg64]
      simp only [show (2 ^ 64 - (x % 2 ^ 64).toNat % 2 ^ 64) % 2 ^ 64 % 2 ^ (8 * 8) = x.natAbs
          from by omega,
        show ((y % 2 ^ 64).toNat : Nat) % 2 ^ (8 * 8) = y.natAbs from by omega,
        if_neg (by omega : ¬ y.natAbs = 0),
        tmod_cast_neg hx]
      simp only [newValueIntLike, ofIntSigned, NewValueInt, intClamp_eq_mod' _ h8w,
        Option.some.injEq, Value.mk.injEq]
      refine ⟨trivial, trivial, ?_, trivial⟩
      generalize hgen : x.natAbs % y.natAbs = r at hrl ⊢
      rcases Nat.eq_zero_or_pos r with hr0 | hr0
      · rw [show (2 ^ 64 - r % 2 ^ 64) % 2 ^ 64 % 2 ^ 64 % 2 ^ (8 * 8) = 0 from by omega]
        rw [intSignExtend_of_lt' _ h1w h8w _ _ (by omega)]
        omega
      · rw [show (2 ^ 64 - r % 2 ^ 64) % 2 ^ 64 % 2 ^ 64 % 2 ^ (8 * 8) = 2 ^ (8 * 8) - r
          from by omega]
        rw [intSignExtend_of_ge' _ h1w h8w _ (by omega) (by omega)]
        omega

end Cparse

section ClaimC2

open Cparse

/-- C2: division and modulus on signed operands of the balanced type
compute unsigned magnitudes and restore sign, giving C99 truncated
division: the quotient is Int.tdiv (sign = XOR of operand signs) and the
remainder is Int.tmod (sign follows the dividend); in particular
-8 / 3 == -2, -8 % 3 == -2, 8 / -3 == -2 and 8 % -3 == 2. -/
theorem c2_div_mod_c99 (s : String) (w : Nat) (x y : Int) (hw : w = 4 ∨ w = 8)
    (hx1 : -(2:Int)^(8*w-1) ≤ x) (hx2 : x < (2:Int)^(8*w-1))
    (hy1 : -(2:Int)^(8*w-1) ≤ y) (hy2 : y < (2:Int)^(8*w-1))
    (hy0 : y ≠ 0) (hc : ¬(x = -((2:Int)^(8*w-1)) ∧ y = -1)) :
    Expression.Value (.operator { typ := .tokenDiv, pos := 0, val := s }
        [.constant (ofIntSigned w x), .constant (ofIntSigned w y)]) =
      some (ofIntSigned w (x.tdiv y)) ∧
    Expression.Value (.operator { typ := .tokenMod, pos := 0, val := s }
        [.constant (ofIntSigned w x), .constant (ofIntSigned w y)]) =
      some (ofIntSigned w (x.tmod y)) ∧
    Expression.Value (.operator { typ := .tokenDiv, pos := 0, val := "/" }
        [.constant (ofIntSigned 4 (-8)), .constant (ofIntSigned 4 3)]) =
      some (ofIntSigned 4 (-2)) ∧
    Expression.Value (.operator { typ := .tokenMod, pos := 0, val := "%" }
        [.constant (ofIntSigned 4 (-8)), .constant (ofIntSigned 4 3)]) =
      some (ofIntSigned 4 (-2)) ∧
    Expression.Value (.operator { typ := .tokenDiv, pos := 0, val := "/" }
        [.constant (ofIntSigned 4 8), .constant (ofIntSigned 4 (-3))]) =
      some (ofIntSigned 4 (-2)) ∧
    Expression.Value (.operator { typ := .tokenMod, pos := 0, val := "%" }
        [.constant (ofIntSigned 4 8), .constant (ofIntSigned 4 (-3))]) =
      some (ofIntSigned 4 2) :=
  ⟨evalValue_div_signed s w hw x y hx1 hx2 hy1 hy2 hy0 hc,
   evalValue_mod_signed s w hw x y hx1 hx2 hy1 hy2 hy0,
   by decide, by decide, by decide, by decide⟩

/-- Witness for c2_div_mod_c99 at w = 4, x = -8, y = 3. -/
theorem c2_div_mod_c99_witness :
    Expression.Value (.operator { typ := .tokenDiv, pos := 0, val := "/" }
        [.constant (ofIntSigned 4 (-8)), .constant (ofIntSigned 4 3)]) =
      some (ofIntSigned 4 ((-8 : Int).tdiv 3)) ∧
    Expression.Value (.operator { typ := .tokenMod, pos := 0, val := "/" }
        [.constant (ofIntSigned 4 (-8)), .constant (ofIntSigned 4 3)]) =
      some (ofIntSigned 4 ((-8 : Int).tmod 3)) :=
  ⟨(c2_div_mod_c99 "/" 4 (-8) 3 (Or.inl rfl) (by decide) (by decide) (by decide) (by decide)
      (by decide) (by decide)).1,
   (c2_div_mod_c99 "/" 4 (-8) 3 (Or.inl rfl) (by decide) (by decide) (by decide) (by decide)
      (by decide) (by decide)).2.1⟩

end ClaimC2

namespace Cparse

theorem checkOperands_shift (tt : tokenType)
    (htt : tt = .tokenLeftShift ∨ tt = .tokenRightShift)
    (p : Nat) (s : String) (v1 v2 : Value) (h1 : v1.IsInt = true) (h2 : v2.IsInt = true) :
    checkOperands { typ := tt, pos := p, val := s } 2 v1 v2 = none := by
  rcases htt with rfl | rfl <;> simp [checkOperands, h1, h2]

theorem convertOperands_shift (tt : tokenType)
    (htt : tt = .tokenLeftShift ∨ tt = .tokenRightShift)
    (p : Nat) (s : String) (v1 v2 v3 : Value) :
    convertOperands { typ := tt, pos := p, val := s } 2 v1 v2 v3 =
      some (.ok ({ v1 with intType := intPromote v1.intType },
        { v2 with intType := intPromote v2.intType }, v3)) := by
  rcases htt with rfl | rfl <;> rfl

theorem intPromote_ge {t : intType} (h : 4 ≤ t.size) : intPromote t = t := by
  simp only [intPromote, intSize]
  rw [if_neg (by omega)]

theorem intPromote_mk_ge (w : Nat) (sg : Bool) (h : 4 ≤ w) :
    intPromote { size := w, signed := sg } = { size := w, signed := sg } :=
  intPromote_ge h

end Cparse

section ClaimC3

open Cparse

/-- C3 counterexample: the claim says a signed negative left operand keeps
its sign after a right shift; the code clamps the stored pattern to the
storage width before shifting (Value.AsUint64), so (-8 as signed 32-bit)
shifted right by 1 yields 0x7ffffffc, which is non-negative. -/
theorem c3_counterexample :
    Expression.Value (.operator { typ := .tokenRightShift, pos := 0, val := ">>" }
        [.constant (ofIntSigned 4 (-8)), .constant (NewValueInt 1 4 false)]) =
      some (NewValueInt 0x7ffffffc 4 true) ∧
    ¬ (NewValueInt 0x7ffffffc 4 true).AsInt < 0 := by
  decide

/-- C3 (amended): shift operators promote each operand independently (no
balancing: the result carries the promoted type of the left operand alone),
use the right operand as an unsigned count, and right shift is logical on
the width-clamped stored pattern for signed as well as unsigned left
operands: a signed negative left operand shifted right by a nonzero count
yields the logical shift of its width-w two's-complement pattern, a
non-negative value. -/
theorem c3_shift_logical (s : String) (w : Nat) (hw : w = 4 ∨ w = 8) (x : Int) (c : Nat)
    (hx1 : -(2:Int)^(8*w-1) ≤ x) (hx2 : x < 0) (hc1 : 0 < c) (hc2 : c < 2 ^ 32) :
    (∀ v1 v2 : Value, v1.typ = .valueInt → v2.typ = .valueInt →
      ∃ r : Value, Expression.Value (.operator { typ := .tokenRightShift, pos := 0, val := s }
          [.constant v1, .constant v2]) = some r ∧ r.intType = intPromote v1.intType) ∧
    (∀ v1 v2 : Value, v1.typ = .valueInt → v2.typ = .valueInt →
      ∃ r : Value, Expression.Value (.operator { typ := .tokenLeftShift, pos := 0, val := s }
          [.constant v1, .constant v2]) = some r ∧ r.intType = intPromote v1.intType) ∧
    Expression.Value (.operator { typ := .tokenRightShift, pos := 0, val := s }
        [.constant (ofIntSigned w x), .constant (NewValueInt c 4 false)]) =
      some (NewValueInt ((x + 2 ^ (8 * w)).toNat >>> c) w true) ∧
    0 ≤ (NewValueInt ((x + 2 ^ (8 * w)).toNat >>> c) w true).AsInt := by
  have h1w : 1 ≤ w := by rcases hw with rfl | rfl <;> omega
  have h8w : w ≤ 8 := by rcases hw with rfl | rfl <;> omega
  have hgen : ∀ tt : tokenType, (tt = .tokenLeftShift ∨ tt = .tokenRightShift) →
      ∀ v1 v2 : Value, v1.typ = .valueInt → v2.typ = .valueInt →
      ∃ r : Value, Expression.Value (.operator { typ := tt, pos := 0, val := s }
          [.constant v1, .constant v2]) = some r ∧ r.intType = intPromote v1.intType := by
    intro tt htt v1 v2 h1 h2
    have h1e : v1.IsError = false := by simp [Value.IsError, h1]
    have h2e : v2.IsError = false := by simp [Value.IsError, h2]
    rw [value_two _ v1 v2 h1e h2e]
    rw [operatorValue, checkOperands_shift tt htt 0 s v1 v2
        (by simp [Value.IsInt, h1]) (by simp [Value.IsInt, h2]),
      convertOperands_shift tt htt 0 s v1 v2 nullValue]
    rcases htt with rfl | rfl <;>
      exact ⟨_, rfl, rfl⟩
  refine ⟨hgen _ (Or.inr rfl), hgen _ (Or.inl rfl), ?_, ?_⟩
  · have hvx : (ofIntSigned w x).intVal = (x % (2:Int) ^ 64).toNat := ofIntSigned_intVal
    rw [value_two { typ := .tokenRightShift, pos := 0, val := s } (ofIntSigned w x)
      (NewValueInt c 4 false) rfl rfl]
    rw [operatorValue, checkOperands_shift _ (Or.inr rfl) 0 s (ofIntSigned w x)
        (NewValueInt c 4 false) rfl rfl,
      convertOperands_shift _ (Or.inr rfl) 0 s (ofIntSigned w x)
        (NewValueInt c 4 false) nullValue]
    simp only [evalOperator, ofIntSigned_typ, ofIntSigned_stringVal, ofIntSigned_intType,
      hvx, NewValueInt, intPromote_mk_ge w true (by omega), intPromote_mk_ge 4 false (by omega),
      Value.AsUint64, intClamp_eq_mod' w h8w, intClamp_eq_mod' 4 (by omega), newValueIntLike]
    have e1 : (x % (2:Int) ^ 64).toNat % 2 ^ (8 * w) = (x + 2 ^ (8 * w)).toNat := by
      rcases hw with rfl | rfl <;> omega
    have e2 : c % 2 ^ 64 % 2 ^ (8 * 4) = c := by omega
    rw [e1, e2, Nat.shiftRight_eq_div_pow]
    have h2c : 2 ≤ 2 ^ c := by
      calc 2 = 2 ^ 1 := rfl
      _ ≤ 2 ^ c := Nat.pow_le_pow_right (by omega) hc1
    have hd : (x + 2 ^ (8 * w)).toNat / 2 ^ c ≤ (x + 2 ^ (8 * w)).toNat / 2 :=
      Nat.div_le_div_left h2c (by omega)
    have hlt : (x + 2 ^ (8 * w)).toNat / 2 ^ c < 2 ^ (8 * w - 1) := by
      rcases hw with rfl | rfl <;> omega
    generalize hA : (x + 2 ^ (8 * w)).toNat / 2 ^ c = A at hlt ⊢
    rw [show A % 2 ^ 64 % 2 ^ (8 * w) = A from by rcases hw with rfl | rfl <;> omega]
    rw [intSignExtend_of_lt' w h1w h8w _ _ hlt]
    rcases hw with rfl | rfl <;>
      simp only [Option.some.injEq, Value.mk.injEq] <;>
      refine ⟨trivial, trivial, by omega, trivial⟩
  · rw [Value.AsInt, NewValueInt]
    dsimp only
    rw [toInt64, Nat.shiftRight_eq_div_pow]
    have h2c : 2 ≤ 2 ^ c := by
      calc 2 = 2 ^ 1 := rfl
      _ ≤ 2 ^ c := Nat.pow_le_pow_right (by omega) hc1
    have hd : (x + 2 ^ (8 * w)).toNat / 2 ^ c ≤ (x + 2 ^ (8 * w)).toNat / 2 :=
      Nat.div_le_div_left h2c (by omega)
    generalize hA : (x + 2 ^ (8 * w)).toNat / 2 ^ c = A at hd ⊢
    split <;> rcases hw with rfl | rfl <;> omega

/-- Witness for c3_shift_logical at w = 4, x = -8, c = 1. -/
theorem c3_shift_logical_witness :
    Expression.Value (.operator { typ := .tokenRightShift, pos := 0, val := ">>" }
        [.constant (ofIntSigned 4 (-8)), .constant (NewValueInt 1 4 false)]) =
      some (NewValueInt (((-8 : Int) + 2 ^ (8 * 4)).toNat >>> 1) 4 true) :=
  (c3_shift_logical ">>" 4 (Or.inl rfl) (-8) 1 (by decide) (by decide) (by decide)
    (by decide)).2.2.1

end ClaimC3

namespace Cparse

theorem intPromote_size_bounds (t : intType) (ht : t.size ≤ 8) :
    1 ≤ (intPromote t).size ∧ (intPromote t).size ≤ 8 := by
  simp only [intPromote, intSize]
  split_ifs with h
  · exact ⟨by decide, by decide⟩
  · exact ⟨by omega, ht⟩

end Cparse

section ClaimC4

open Cparse

/-- C4 counterexample: the claim says the unchosen arm of a ternary is not
evaluated, so with a true condition the result is the second operand even
when the third evaluates to an Error; the code evaluates all three
operands first and returns the Error from the unchosen arm. -/
theorem c4_counterexample :
    Expression.Value (.operator { typ := .tokenQuestion, pos := 0, val := "?" }
        [.constant (NewValueInt 1 4 true), .constant (NewValueInt 2 4 true),
          .constant (NewValueError "boom")]) = some (NewValueError "boom") ∧
    (NewValueError "boom").IsError = true := by
  decide

/-- C4 (amended): the ternary balances the two arms to a common type, but
all three operands are evaluated eagerly and an Error value produced by
any of them, including the unchosen arm, is returned; when all three
operands are integer values the result is the chosen arm re-typed to the
balanced type. -/
theorem c4_ternary_eager (s : String) (v1 v2 v3 : Value) (msg : String)
    (h1 : v1.typ = .valueInt) (h2 : v2.typ = .valueInt) (h3 : v3.typ = .valueInt)
    (hw2 : v2.intType.size ≤ 8) (hw3 : v3.intType.size ≤ 8) :
    (∃ t2 t3 : intType,
      intBalance (intPromote v2.intType) (intPromote v3.intType) = some (t2, t3) ∧
      Expression.Value (.operator { typ := .tokenQuestion, pos := 0, val := s }
          [.constant v1, .constant v2, .constant v3]) =
        some (if v1.AsBool then { v2 with intType := t2 } else { v3 with intType := t3 })) ∧
    Expression.Value (.operator { typ := .tokenQuestion, pos := 0, val := s }
        [.constant v1, .constant v2, .constant (NewValueError msg)]) =
      some (NewValueError msg) := by
  have he1 : v1.IsError = false := by simp [Value.IsError, h1]
  have he2 : v2.IsError = false := by simp [Value.IsError, h2]
  have he3 : v3.IsError = false := by simp [Value.IsError, h3]
  constructor
  · obtain ⟨hp2a, hp2b⟩ := intPromote_size_bounds v2.intType hw2
    obtain ⟨hp3a, hp3b⟩ := intPromote_size_bounds v3.intType hw3
    have hbal := intBalance_eq_spec (intPromote v2.intType) (intPromote v3.intType)
      hp2a hp2b hp3a hp3b
    refine ⟨(specBalance (intPromote v2.intType) (intPromote v3.intType)).1,
      (specBalance (intPromote v2.intType) (intPromote v3.intType)).2, hbal, ?_⟩
    simp only [Expression.Value, he1, he2, he3, Bool.false_eq_true, if_false]
    rw [show List.length ([] : List Expression) + 3 = 3 from rfl]
    rw [operatorValue]
    rw [show checkOperands { typ := .tokenQuestion, pos := 0, val := s } 3 v1 v2 = none
      from by simp [checkOperands, Value.IsInt, h1]]
    rw [convertOperands]
    simp only [hbal, evalOperator]
  · simp only [Expression.Value, he1, he2, Bool.false_eq_true, if_false]
    rw [show (NewValueError msg).IsError = true from rfl]
    simp only [if_true]

/-- Witness for c4_ternary_eager at concrete integer operands. -/
theorem c4_ternary_eager_witness :
    (∃ t2 t3 : intType,
      intBalance (intPromote (NewValueInt 2 4 true).intType)
          (intPromote (NewValueInt 3 4 false).intType) = some (t2, t3) ∧
      Expression.Value (.operator { typ := .tokenQuestion, pos := 0, val := "?" }
          [.constant (NewValueInt 1 4 true), .constant (NewValueInt 2 4 true),
            .constant (NewValueInt 3 4 false)]) =
        some (if (NewValueInt 1 4 true).AsBool then
          { NewValueInt 2 4 true with intType := t2 }
        else { NewValueInt 3 4 false with intType := t3 })) ∧
    Expression.Value (.operator { typ := .tokenQuestion, pos := 0, val := "?" }
        [.constant (NewValueInt 1 4 true), .constant (NewValueInt 2 4 true),
          .constant (NewValueError "oops")]) =
      some (NewValueError "oops") :=
  c4_ternary_eager "?" (NewValueInt 1 4 true) (NewValueInt 2 4 true) (NewValueInt 3 4 false)
    "oops" rfl rfl rfl (by decide) (by decide)

end ClaimC4

namespace Cparse

/-- Normalization invariant on a stored bit pattern, taken from the
wording of the spec: the pattern is a u64; for an unsigned value of
storage width w all bits above bit w-1 are zero; for a signed negative
value (sign bit w-1 set) all bits from w-1 upward are set. -/
def normalizedPattern (val : Nat) (t : intType) : Prop :=
  val < 2 ^ 64 ∧
  (t.signed = false → ∀ i, 8 * t.size ≤ i → val.testBit i = false) ∧
  (t.signed = true → val.testBit (8 * t.size - 1) = true →
    ∀ i, 8 * t.size - 1 ≤ i → i < 64 → val.testBit i = true)

theorem normalized_signExtend_clamp (valIn : Nat) (t : intType)
    (h1 : 1 ≤ t.size) (h8 : t.size ≤ 8) :
    normalizedPattern (intSignExtend (intClamp valIn t) t) t := by
  obtain ⟨w, sg⟩ := t
  dsimp only at h1 h8
  rw [intClamp_eq_mod' w h8]
  have hpow : (2:Nat) ^ (8 * w) ≤ 2 ^ 64 := Nat.pow_le_pow_right (by omega) (by omega)
  have hlt : valIn % 2 ^ (8 * w) < 2 ^ (8 * w) := Nat.mod_lt _ (Nat.two_pow_pos _)
  rcases sg with _ | _
  · rw [intSignExtend_unsigned]
    refine ⟨by omega, ?_, by simp⟩
    intro _ i hi
    refine Nat.testBit_lt_two_pow (Nat.lt_of_lt_of_le hlt ?_)
    exact Nat.pow_le_pow_right (by omega) hi
  · rcases Nat.lt_or_ge (valIn % 2 ^ (8 * w)) (2 ^ (8 * w - 1)) with hc | hc
    · rw [intSignExtend_of_lt h1 h8 hc]
      refine ⟨by omega, by simp, ?_⟩
      intro _ hbit
      rw [Nat.testBit_lt_two_pow hc] at hbit
      exact absurd hbit (by simp)
    · rw [intSignExtend_of_ge h1 h8 hc hlt]
      have hsplit : 2 ^ 64 - 2 ^ (8 * w) + valIn % 2 ^ (8 * w) =
          2 ^ (8 * w) * (2 ^ (64 - 8 * w) - 1) + valIn % 2 ^ (8 * w) := by
        have : 2 ^ (8 * w) * (2 ^ (64 - 8 * w) - 1) = 2 ^ 64 - 2 ^ (8 * w) := by
          rw [Nat.mul_sub_one, ← Nat.pow_add]
          have he : 8 * w + (64 - 8 * w) = 64 := by omega
          rw [he]
        omega
      rw [hsplit]
      refine ⟨?_, by simp, ?_⟩
      · have : valIn % 2 ^ (8 * w) < 2 ^ (8 * w) := hlt
        have h2 : 2 ^ (8 * w) * (2 ^ (64 - 8 * w) - 1) ≤ 2 ^ 64 - 2 ^ (8 * w) := by omega
        omega
      · intro _ _ i hi hi64
        rw [Nat.testBit_mul_pow_two_add _ hlt]
        split_ifs with hj
        · have hi2 : 8 * w - 1 ≤ i := hi
          have hieq : i = 8 * w - 1 := by omega
          rw [hieq]
          exact testBit_high_of_lt (by omega) hc hlt
        · have hi2 : 8 * w - 1 ≤ i := hi
          rw [Nat.testBit_two_pow_sub_one]
          simp only [decide_eq_true_eq]
          omega

end Cparse

section ClaimC5

open Cparse

/-- C5 counterexample: the claim says every integer Value produced by any
operation stores a normalized pattern; the ternary operator re-types an
arm during balancing without re-normalizing, so 1 ? (-1 as signed 32-bit)
: (1 as unsigned 32-bit) produces an unsigned 4-byte Value whose stored
pattern 0xffffffffffffffff has bits above bit 31 set. -/
theorem c5_counterexample :
    Expression.Value (.operator { typ := .tokenQuestion, pos := 0, val := "?" }
        [.constant (NewValueInt 1 4 true), .constant (ofIntSigned 4 (-1)),
          .constant (NewValueInt 1 4 false)]) =
      some (Value.mk .valueInt "" (2 ^ 64 - 1) { size := 4, signed := false }) ∧
    ¬ normalizedPattern (2 ^ 64 - 1) { size := 4, signed := false } := by
  constructor
  · decide
  · intro h
    have h32 := h.2.1 rfl 32 (by decide)
    rw [Nat.testBit_two_pow_sub_one] at h32
    simp at h32

/-- C5 (amended): integer Values produced by the normalizing mutations
newValueIntLike and newValueIntCast do satisfy the stored-pattern
invariant (clamped to the storage width, sign-extended when signed and
negative): unsigned values have all bits above bit w-1 zero and signed
negative values have all bits from w-1 upward set.  The invariant does
not hold for every operation: the ternary operator and NewValueInt store
patterns without re-normalizing. -/
theorem c5_normalized_mutations (v : Value) (val : Nat) (t : intType)
    (h1 : 1 ≤ v.intType.size) (h8 : v.intType.size ≤ 8)
    (ht1 : 1 ≤ t.size) (ht8 : t.size ≤ 8) :
    normalizedPattern (newValueIntLike v val).intVal (newValueIntLike v val).intType ∧
    normalizedPattern (newValueIntCast v t).intVal (newValueIntCast v t).intType :=
  ⟨normalized_signExtend_clamp (val % 2 ^ 64) v.intType h1 h8,
   normalized_signExtend_clamp v.intVal t ht1 ht8⟩

/-- Witness for c5_normalized_mutations at a concrete Value and type. -/
theorem c5_normalized_mutations_witness :
    normalizedPattern (newValueIntLike (NewValueInt 7 4 true) 0xdeadbeefcafe).intVal
      (newValueIntLike (NewValueInt 7 4 true) 0xdeadbeefcafe).intType ∧
    normalizedPattern
      (newValueIntCast (NewValueInt 7 4 true) { size := 1, signed := true }).intVal
      (newValueIntCast (NewValueInt 7 4 true) { size := 1, signed := true }).intType :=
  c5_normalized_mutations (NewValueInt 7 4 true) 0xdeadbeefcafe
    { size := 1, signed := true } (by decide) (by decide) (by decide) (by decide)

end ClaimC5

namespace Ftrace

/-! Embedding of the ftrace package: printf conversion munging and the
ftrace path check. -/

/-- Model of a cparse printf argument expression as handled by
mungePrintfConversions (eventtype.go): the function never inspects the
argument, it only wraps it in a call to a kernel helper via
cparse.CallFunction, so arguments are modelled abstractly: arg stands for
the original expression, call for CallFunction(eventFunction, name,
args). -/
inductive PrintfArg where
  | arg (n : Nat)
  | call (name : String) (args : List PrintfArg)

/-- Conversion from cprintf (the Go Conversion struct; the Scope field is
unused by the embedded code and omitted).  Go bytes are modelled as
Char. -/
structure Conversion where
  conversion : Char
  modifiers : String
  suffix : String
  arg : PrintfArg

/-- Key set of the kernelFunctions map (package ftrace): the map values
are Go functions, only presence of a key matters to the embedded code.
Note the lowercase k in the last entry, as in the source. -/
def kernelFunctionNames : List String :=
  ["__print_flags", "__print_symbolic", "__get_str",
   "__printk_pf", "__printk_pF", "__printk_pk"]

/-- Lookup kernelFunctions[name] != nil. -/
def kernelFunctionsHas (name : String) : Bool := kernelFunctionNames.contains name

/-- mungePrintfConversions from eventtype.go.  The Go switch on the
pointer modifier has an unreachable panic default (the guard restricts
the modifier to f, F or K); the final else branch of the name selection
is therefore exactly the K case. -/
def mungePrintfConversions (c : Conversion) : Conversion :=
  match c.suffix.data with
  | [] => c
  | pointerModifier :: rest =>
    if c.conversion = 'p' ∧
        (pointerModifier = 'f' ∨ pointerModifier = 'F' ∨ pointerModifier = 'K') then
      let c := { c with suffix := String.mk rest }
      let name :=
        if pointerModifier = 'f' then "__printk_pf"
        else if pointerModifier = 'F' then "__printk_pF"
        else "__printk_pK"
      if kernelFunctionsHas name then
        { c with arg := .call name [c.arg], conversion := 's', modifiers := "" }
      else
        { c with suffix :=
            "FAILED POINTER MODIFIER " ++ String.mk [pointerModifier] ++ " " ++ c.suffix }
    else c

/-- Constant ftracePath from file.go. -/
def ftracePath : String := "/sys/kernel/debug/tracing"

/-- Model of Go strings.Split(s, sep) for a single-character separator. -/
def goSplitChars (sep : Char) : List Char → List (List Char)
  | [] => [[]]
  | ch :: rest =>
    match goSplitChars sep rest with
    | [] => [[]]
    | first :: others =>
      if ch = sep then [] :: first :: others else (ch :: first) :: others

/-- filepath.SplitList from the Go standard library on Linux: an empty
string yields no entries, any other string is split at every colon (the
OS path list separator), NOT at slashes. -/
def splitList (path : String) : List String :=
  if path = "" then [] else (goSplitChars ':' path.data).map String.mk

/-- SafeFtracePath from file.go. -/
def SafeFtracePath (path : String) : Bool :=
  (splitList path).all fun d => !(d == "..")

/-- Error values BadFtraceFileName and BadProcFileName from file.go. -/
inductive fileError where
  | BadFtraceFileName
  | BadProcFileName
deriving DecidableEq, Repr

/-- Filesystem accesses performed by localFileProvider once the path
check passes. -/
inductive fileOp where
  | readFile (path : String)
  | writeFile (path : String) (data : List Nat)
  | openFile (path : String)
deriving DecidableEq, Repr

/-- ReadFtraceFile of localFileProvider (file.go): the guard followed by
ioutil.ReadFile(path.Join(ftracePath, filename)).  The ok value records
the file access; path.Join's lexical cleaning of the joined string is
not modelled (the claims are about the guard). -/
def localReadFtraceFile (filename : String) : Except fileError fileOp :=
  if ¬SafeFtracePath filename then .error .BadFtraceFileName
  else .ok (.readFile (ftracePath ++ "/" ++ filename))

/-- WriteFtraceFile of localFileProvider (file.go). -/
def localWriteFtraceFile (filename : String) (data : List Nat) : Except fileError fileOp :=
  if ¬SafeFtracePath filename then .error .BadFtraceFileName
  else .ok (.writeFile (ftracePath ++ "/" ++ filename) data)

/-- OpenFtrace of localFileProvider (file.go). -/
def localOpenFtrace (filename : String) : Except fileError fileOp :=
  if ¬SafeFtracePath filename then .error .BadFtraceFileName
  else .ok (.openFile (ftracePath ++ "/" ++ filename))

end Ftrace

section ClaimC8

open Ftrace

/-- C8: for %pf and %pF the adapter plucks the modifier, replaces the
argument with a call to the kernel helper and changes the specifier to
%s, as the claim states; for %pK the lookup of __printk_pK fails because
the kernelFunctions map registers the helper under the misspelled key
__printk_pk, so the conversion is left as %p and the suffix is replaced
by a FAILED POINTER MODIFIER note: the code contradicts the claim (and
its own helper registration) on %pK. -/
theorem c8_printf_pointer_modifiers (mods : String) (cs : List Char) (a : PrintfArg) :
    mungePrintfConversions ⟨'p', mods, String.mk ('f' :: cs), a⟩ =
      ⟨'s', "", String.mk cs, .call "__printk_pf" [a]⟩ ∧
    mungePrintfConversions ⟨'p', mods, String.mk ('F' :: cs), a⟩ =
      ⟨'s', "", String.mk cs, .call "__printk_pF" [a]⟩ ∧
    mungePrintfConversions ⟨'p', mods, String.mk ('K' :: cs), a⟩ =
      ⟨'p', mods, "FAILED POINTER MODIFIER K " ++ String.mk cs, a⟩ ∧
    kernelFunctionsHas "__printk_pK" = false ∧
    kernelFunctionsHas "__printk_pk" = true := by
  refine ⟨rfl, rfl, rfl, rfl, rfl⟩

end ClaimC8

section ClaimC9

open Ftrace

/-- C9: the claim says every ftrace path containing a .. component is
rejected with a bad-file-name error before any filesystem access; but
SafeFtracePath splits with filepath.SplitList, which separates at colons
(the OS path list separator) rather than at slashes, so "../foo" has a
.. path component yet passes the check and all three file operations
proceed to the filesystem; only a path that IS ".." (or has a
colon-separated entry "..") is rejected. -/
theorem c9_safe_ftrace_path :
    SafeFtracePath ".." = false ∧
    localReadFtraceFile ".." = .error .BadFtraceFileName ∧
    SafeFtracePath "../foo" = true ∧
    (goSplitChars '/' "../foo".data).contains "..".data = true ∧
    localReadFtraceFile "../foo" = .ok (.readFile "/sys/kernel/debug/tracing/../foo") ∧
    localWriteFtraceFile "../foo" [] =
      .ok (.writeFile "/sys/kernel/debug/tracing/../foo" []) ∧
    localOpenFtrace "../foo" = .ok (.openFile "/sys/kernel/debug/tracing/../foo") := by
  refine ⟨rfl, rfl, rfl, rfl, rfl, rfl, rfl⟩

end ClaimC9

namespace Ftrace

/-! Embedding of the ring-buffer page decoder (decodePage and the event
decoding it relies on).  Page bytes are modelled as List Nat; each entry
stands for one byte and is reduced modulo 256 at every read, modelling
the Go byte type. -/

/-- Byte read data[i]; reads in the embedded code are always length
checked, the default 0 is never reached on those paths. -/
def byteAt (data : List Nat) (i : Nat) : Nat := data.getD i 0 % 256

/-- binary.LittleEndian.Uint16. -/
def goUint16 (data : List Nat) : Nat :=
  byteAt data 0 ||| (byteAt data 1 <<< 8)

/-- binary.LittleEndian.Uint32. -/
def goUint32 (data : List Nat) : Nat :=
  byteAt data 0 ||| (byteAt data 1 <<< 8) ||| (byteAt data 2 <<< 16) ||| (byteAt data 3 <<< 24)

/-- binary.LittleEndian.Uint64. -/
def goUint64 (data : List Nat) : Nat :=
  byteAt data 0 ||| (byteAt data 1 <<< 8) ||| (byteAt data 2 <<< 16) ||| (byteAt data 3 <<< 24) |||
  (byteAt data 4 <<< 32) ||| (byteAt data 5 <<< 40) ||| (byteAt data 6 <<< 48) |||
  (byteAt data 7 <<< 56)

/-- Two's-complement reading of the low bits of a byte pattern: models the
Go conversions int64(int8(x)), int64(int16(x)), int64(int32(x)) and
int64(x) used by DecodeInt. -/
def toSigned (bits : Nat) (x : Nat) : Int :=
  if x % 2 ^ bits < 2 ^ (bits - 1) then (x % 2 ^ bits : Int)
  else (x % 2 ^ bits : Int) - 2 ^ bits

/-- eventField from eventtype.go.  The Go size and offset fields are ints
that parseField rejects when negative, so they are modelled as Nat. -/
structure eventField where
  name : String := ""
  size : Nat := 0
  offset : Nat := 0
  signed : Bool := false
  array : Bool := false
  ftype : String := ""
  dataloc : Bool := false
deriving DecidableEq, Repr

/-- EventType from eventtype.go, restricted to the fields the decoding
paths use (the file provider and the print formatter are omitted).  The
three common-field indices are ints that getFieldNum sets to -1 when the
field is missing, hence Int. -/
structure EventType where
  path : String := ""
  name : String := ""
  id : Nat := 0
  fields : List eventField := []
  size : Nat := 0
  pidField : Int := 0
  flagsField : Int := 0
  preemptField : Int := 0
deriving DecidableEq, Repr

/-- eventFieldValue from eventtype.go (the field pointer becomes a
copy). -/
structure eventFieldValue where
  field : eventField
  contents : List Nat
deriving DecidableEq, Repr

/-- DecodeUint from eventtype.go. -/
def eventFieldValue.DecodeUint (v : eventFieldValue) : Nat :=
  match v.field.size with
  | 1 => byteAt v.contents 0
  | 2 => goUint16 v.contents
  | 4 => goUint32 v.contents
  | 8 => goUint64 v.contents
  | _ => 0

/-- DecodeInt from eventtype.go. -/
def eventFieldValue.DecodeInt (v : eventFieldValue) : Int :=
  match v.field.size with
  | 1 => toSigned 8 (byteAt v.contents 0)
  | 2 => toSigned 16 (goUint16 v.contents)
  | 4 => toSigned 32 (goUint32 v.contents)
  | 8 => toSigned 64 (goUint64 v.contents)
  | _ => 0

/-- finishNewType from eventtype.go: the computed size is the largest
field end. -/
def finishNewTypeSize (fields : List eventField) : Nat :=
  fields.foldl (fun size f => if size < f.offset + f.size then f.offset + f.size else size) 0

/-- getFieldNum from eventtype.go: index of the first field with the
given name, -1 when absent. -/
def getFieldNumAux (field : String) (i : Nat) : List eventField → Int
  | [] => -1
  | f :: rest => if f.name = field then (i : Int) else getFieldNumAux field (i + 1) rest

/-- getFieldNum on an EventType. -/
def EventType.getFieldNum (etype : EventType) (field : String) : Int :=
  getFieldNumAux field 0 etype.fields

/-- Event from the ftrace package, restricted to the fields DecodeEvent
and decodePage set (the back pointer to the ftrace struct, assigned after
decoding, is omitted). -/
structure Event where
  etype : EventType
  values : List eventFieldValue := []
  Cpu : Int := 0
  When : Nat := 0
  Pid : Int := 0
  Flags : Nat := 0
  Preempt : Int := 0
  contents : List Nat := []
deriving DecidableEq, Repr

/-- Errors of the page decoder.  BadEventHeader carries its What message
structurally (the source formats these into strings); unknownTypeId
models the fmt.Errorf value stored in lazyErr for an unregistered type
ID. -/
inductive eventHeaderWhat where
  | notEnoughZeroLen
  | notEnoughData (dataAvail dataLen pageLen pageEnd : Nat)
  | notEnoughPadding
  | notEnoughTimeExt
deriving DecidableEq, Repr

/-- Error values of the ftrace page decoder. -/
inductive FtraceError where
  | BadPageHeader
  | BadEventHeader (what : eventHeaderWhat) (page : List Nat) (offset : Nat)
  | BadEventData
  | unknownTypeId (id : Nat)
deriving DecidableEq, Repr

/-- Indexing of a Go slice of values: a negative or out-of-range index
panics (none). -/
def sliceIndex (values : List eventFieldValue) (i : Int) : Option eventFieldValue :=
  if i < 0 then none else values[i.toNat]?

/-- DecodeEvent from eventtype.go.  The outer none models a panic from
indexing values with a common-field index that is -1 or out of range;
field content slicing is in range whenever size is the finishNewType
maximum (which the length check guarantees), so it is modelled with
drop/take. -/
def EventType.DecodeEvent (etype : EventType) (data : List Nat) (cpu : Int) (when : Nat) :
    Option (Except FtraceError Event) :=
  if data.length < etype.size then some (.error .BadEventData)
  else
    let values := etype.fields.map fun f =>
      eventFieldValue.mk f ((data.drop f.offset).take f.size)
    match sliceIndex values etype.pidField, sliceIndex values etype.flagsField,
        sliceIndex values etype.preemptField with
    | some pv, some fv, some prv =>
      some (.ok (Event.mk etype values cpu when pv.DecodeInt fv.DecodeUint prv.DecodeInt data))
    | _, _, _ => none

/-- Entry constants from the page decoder. -/
def entryTypeDataMax : Nat := 28

/-- Padding entry type. -/
def entryTypePadding : Nat := 29

/-- Time-extend entry type. -/
def entryTypeTimeExt : Nat := 30

/-- Bit width of the type_len field. -/
def entryTypeLenBits : Nat := 5

/-- Bit width of the time_delta field. -/
def entryTimeDeltaBits : Nat := 27

/-- Shift of the type_len field. -/
def entryTypeLenShift : Nat := 0

/-- Shift of the time_delta field. -/
def entryTimeDeltaShift : Nat := entryTypeLenBits

/-- Mask of the type_len field. -/
def entryTypeLenMask : Nat := (1 <<< entryTypeLenBits) - 1

/-- Mask of the time_delta field. -/
def entryTimeDeltaMask : Nat := (1 <<< entryTimeDeltaBits) - 1

/-- Align-down of the Go expression (dataLen+3) &^ 0x3 (clear the low two
bits). -/
def alignDown4 (n : Nat) : Nat := n - n % 4

/-- Decode-relevant fields of the ftrace struct (part_002): the event
type map restricted to the uint16 type IDs decodePage reads, the page
header type, and the three header field indices set by init() via
getFieldNum. -/
structure Ftrace where
  eventTypes : Nat → Option EventType
  pageHeader : EventType
  pageHeaderFieldTimestamp : Int
  pageHeaderFieldCommit : Int
  pageHeaderFieldData : Int

/-- Body of the dataLoop of decodePage (part_006).  The parameters pos
(byte offset of the current entry inside fullData, computed in Go from
slice capacities), pageLen and pageOffset (used in one error message) are
threaded from decodePage.  A Go slice-bounds panic is modelled as none:
the only reachable one is data[padding:] with padding greater than the
remaining length. -/
def decodeLoop (f : Ftrace) (cpu : Int) (fullData : List Nat) (pageLen pageOffset : Nat)
    (data : List Nat) (pos : Nat) (when : Nat) (events : List Event)
    (lazyErr : Option FtraceError) : Option (List Event × Option FtraceError) :=
  if h0 : data.length = 0 then some (events, lazyErr)
  else if h4 : data.length < 4 then some (events, some .BadPageHeader)
  else
    let offset := pos
    let entryHeader := goUint32 data
    let data1 := data.drop 4
    let typeLen := (entryHeader >>> entryTypeLenShift) &&& entryTypeLenMask
    let timeDelta := (entryHeader >>> entryTimeDeltaShift) &&& entryTimeDeltaMask
    if typeLen ≤ entryTypeDataMax then
      let when := (when + timeDelta) % 2 ^ 64
      if typeLen = 0 ∧ data1.length < 4 then
        some (events, some (.BadEventHeader .notEnoughZeroLen fullData offset))
      else
        let dataLen := if typeLen = 0 then goUint32 data1 else typeLen * 4
        let consumed := if typeLen = 0 then 8 else 4
        let data2 := data.drop consumed
        if data2.length < dataLen ∨ dataLen < 2 then
          some (events, some (.BadEventHeader
            (.notEnoughData data2.length dataLen pageLen (pageOffset + pageLen))
            fullData offset))
        else
          let eventData := data2.take dataLen
          let data3 := data2.drop (alignDown4 (dataLen + 3))
          let typeId := goUint16 eventData
          match f.eventTypes typeId with
          | none =>
            decodeLoop f cpu fullData pageLen pageOffset data3
              (pos + consumed + alignDown4 (dataLen + 3)) when events
              (some (.unknownTypeId typeId))
          | some etype =>
            match etype.DecodeEvent eventData cpu when with
            | none => none
            | some (.error e) =>
              decodeLoop f cpu fullData pageLen pageOffset data3
                (pos + consumed + alignDown4 (dataLen + 3)) when events (some e)
            | some (.ok event) =>
              decodeLoop f cpu fullData pageLen pageOffset data3
                (pos + consumed + alignDown4 (dataLen + 3)) when (events ++ [event]) lazyErr
    else if typeLen = entryTypePadding then
      if timeDelta = 0 then some (events, lazyErr)
      else if data1.length < 4 then
        some (events, some (.BadEventHeader .notEnoughPadding fullData offset))
      else
        let padding := goUint32 data1
        if data1.length < padding then none
        else
          decodeLoop f cpu fullData pageLen pageOffset (data1.drop padding)
            (pos + 4 + padding) when events lazyErr
    else if typeLen = entryTypeTimeExt then
      if data1.length < 4 then
        some (events, some (.BadEventHeader .notEnoughTimeExt fullData offset))
      else
        let timeDeltaExt := goUint32 data1
        let data2 := data1.drop 4
        let timeDelta := (timeDelta + (timeDeltaExt <<< entryTimeDeltaBits)) % 2 ^ 64
        let when := (when + timeDelta) % 2 ^ 64
        decodeLoop f cpu fullData pageLen pageOffset data2 (pos + 8) when events lazyErr
    else
      decodeLoop f cpu fullData pageLen pageOffset data1 (pos + 4) when events lazyErr
termination_by data.length
decreasing_by
  all_goals simp only [List.length_drop]
  all_goals first
  | omega
  | (split <;> omega)

/-- decodePage from part_006.  Returns the decoded events together with
the error value (Go returns both through named results); none models a
panic. -/
def decodePage (f : Ftrace) (cpu : Int) (data : List Nat) :
    Option (List Event × Option FtraceError) :=
  match f.pageHeader.DecodeEvent data 0 0 with
  | none => none
  | some (.error e) => some ([], some e)
  | some (.ok page) =>
    match sliceIndex page.values f.pageHeaderFieldTimestamp,
        sliceIndex page.values f.pageHeaderFieldCommit,
        sliceIndex page.values f.pageHeaderFieldData with
    | some tsv, some cv, some dv =>
      let when := tsv.DecodeUint
      let pageLen := cv.DecodeUint &&& ((1 <<< 30) - 1)
      let pageOffset := dv.field.offset
      if pageLen < 0 ∨ data.length < pageOffset + pageLen then some ([], some .BadPageHeader)
      else
        let fullData := data.take (pageOffset + pageLen)
        let pageData := (data.drop pageOffset).take pageLen
        decodeLoop f cpu fullData pageLen pageOffset pageData pageOffset when [] none
    | _, _, _ => none

end Ftrace

namespace Ftrace

/-! Concrete fixtures: a well-formed header_page layout (timestamp,
commit, data) and one registered event type, wired together exactly as
NewHeaderType / newEventType / init() build them. -/

/-- Fields of the header_page format fixture. -/
def testPageHeaderFields : List eventField :=
  [eventField.mk "timestamp" 8 0 false false "u64" false,
   eventField.mk "commit" 8 8 false false "local_t" false,
   eventField.mk "data" 0 16 false false "char" false]

/-- The page-header EventType: NewHeaderType parses the fields and runs
finishNewType; the common-field indices stay at their zero value. -/
def testPageHeader : EventType :=
  EventType.mk "events/header_page" "" 0 testPageHeaderFields
    (finishNewTypeSize testPageHeaderFields) 0 0 0

/-- Fields of the registered test event type (the four common fields of
every ftrace event format). -/
def testEventFields : List eventField :=
  [eventField.mk "common_type" 2 0 false false "unsigned short" false,
   eventField.mk "common_flags" 1 2 false false "unsigned char" false,
   eventField.mk "common_preempt_count" 1 3 false false "unsigned char" false,
   eventField.mk "common_pid" 4 4 true false "int" false]

/-- The test event type before newEventType assigns the common-field
indices. -/
def testEventTypeBase : EventType :=
  EventType.mk "test/event" "event" 1 testEventFields
    (finishNewTypeSize testEventFields) 0 0 0

/-- The registered test event type, id 1, with the common-field indices
set the way newEventType sets them. -/
def testEventType : EventType :=
  { testEventTypeBase with
    pidField := testEventTypeBase.getFieldNum "common_pid",
    flagsField := testEventTypeBase.getFieldNum "common_flags",
    preemptField := testEventTypeBase.getFieldNum "common_preempt_count" }

/-- An Ftrace value holding the fixtures, with the page-header field
indices computed by getFieldNum as in init(). -/
def testFtrace : Ftrace :=
  Ftrace.mk (fun id => if id = 1 then some testEventType else none) testPageHeader
    (testPageHeader.getFieldNum "timestamp") (testPageHeader.getFieldNum "commit")
    (testPageHeader.getFieldNum "data")

/-- Test-input builder: little-endian bytes of a 32-bit value. -/
def le32 (n : Nat) : List Nat :=
  [n % 256, n / 2 ^ 8 % 256, n / 2 ^ 16 % 256, n / 2 ^ 24 % 256]

/-- Test-input builder: little-endian bytes of a 64-bit value. -/
def le64 (n : Nat) : List Nat :=
  [n % 256, n / 2 ^ 8 % 256, n / 2 ^ 16 % 256, n / 2 ^ 24 % 256,
   n / 2 ^ 32 % 256, n / 2 ^ 40 % 256, n / 2 ^ 48 % 256, n / 2 ^ 56 % 256]

/-- Test-input builder: a ring-buffer entry header word with the given
type_len and time_delta fields. -/
def entryWord (typeLen delta : Nat) : Nat := typeLen ||| (delta <<< entryTypeLenBits)

/-- The byte contents of the fixture data event: type id 1, flags 0,
preempt 0, pid 0. -/
def testEventBytes : List Nat := [1, 0, 0, 0, 0, 0, 0, 0]

/-- Field values DecodeEvent extracts from testEventBytes. -/
def testEventValues : List eventFieldValue :=
  testEventType.fields.map fun f =>
    eventFieldValue.mk f ((testEventBytes.drop f.offset).take f.size)

/-- Disjoint-range and-or: or-ing a shifted value onto low bits is
addition. -/
theorem or_shl (a b k : Nat) (h : a < 2 ^ k) : a ||| (b <<< k) = a + 2 ^ k * b := by
  calc a ||| (b <<< k) = 2 ^ k * b ||| a := by
        rw [Nat.lor_comm, Nat.shiftLeft_eq, mul_comm]
    _ = 2 ^ k * b + a := (Nat.mul_add_lt_is_or h b).symm
    _ = a + 2 ^ k * b := by omega

/-- Bytes are below 256. -/
theorem byteAt_lt (data : List Nat) (i : Nat) : byteAt data i < 256 :=
  Nat.mod_lt _ (by norm_num)

/-- goUint16 written additively. -/
theorem goUint16_eq (d : List Nat) :
    goUint16 d = byteAt d 0 + 2 ^ 8 * byteAt d 1 := by
  have h0 := byteAt_lt d 0
  rw [goUint16, or_shl _ _ 8 (by omega)]

/-- goUint32 written additively. -/
theorem goUint32_eq (d : List Nat) :
    goUint32 d = byteAt d 0 + 2 ^ 8 * byteAt d 1 + 2 ^ 16 * byteAt d 2 +
      2 ^ 24 * byteAt d 3 := by
  have h0 := byteAt_lt d 0
  have h1 := byteAt_lt d 1
  have h2 := byteAt_lt d 2
  rw [goUint32, or_shl _ _ 8 (by omega), or_shl _ _ 16 (by omega), or_shl _ _ 24 (by omega)]

/-- goUint64 written additively. -/
theorem goUint64_eq (d : List Nat) :
    goUint64 d = byteAt d 0 + 2 ^ 8 * byteAt d 1 + 2 ^ 16 * byteAt d 2 +
      2 ^ 24 * byteAt d 3 + 2 ^ 32 * byteAt d 4 + 2 ^ 40 * byteAt d 5 +
      2 ^ 48 * byteAt d 6 + 2 ^ 56 * byteAt d 7 := by
  have h0 := byteAt_lt d 0
  have h1 := byteAt_lt d 1
  have h2 := byteAt_lt d 2
  have h3 := byteAt_lt d 3
  have h4 := byteAt_lt d 4
  have h5 := byteAt_lt d 5
  have h6 := byteAt_lt d 6
  rw [goUint64, or_shl _ _ 8 (by omega), or_shl _ _ 16 (by omega), or_shl _ _ 24 (by omega),
    or_shl _ _ 32 (by omega), or_shl _ _ 40 (by omega), or_shl _ _ 48 (by omega),
    or_shl _ _ 56 (by omega)]

/-- le32 has four bytes. -/
theorem length_le32 (n : Nat) : (le32 n).length = 4 := rfl

/-- le64 has eight bytes. -/
theorem length_le64 (n : Nat) : (le64 n).length = 8 := rfl

/-- Byte reads below the length of a prefix read the prefix. -/
theorem byteAt_append (l r : List Nat) (i : Nat) (h : i < l.length) :
    byteAt (l ++ r) i = byteAt l i := by
  simp [byteAt, List.getD_eq_getElem?_getD, List.getElem?_append, h]

/-- Reading a 32-bit word from le32 bytes recovers the value mod 2^32. -/
theorem goUint32_le32 (n : Nat) (r : List Nat) : goUint32 (le32 n ++ r) = n % 2 ^ 32 := by
  rw [goUint32_eq]
  rw [byteAt_append _ _ 0 (by simp [le32]), byteAt_append _ _ 1 (by simp [le32]),
    byteAt_append _ _ 2 (by simp [le32]), byteAt_append _ _ 3 (by simp [le32])]
  simp only [byteAt, le32, List.getD_cons_zero, List.getD_cons_succ]
  omega

/-- Reading a 64-bit word from le64 bytes recovers the value mod 2^64. -/
theorem goUint64_le64 (n : Nat) (r : List Nat) : goUint64 (le64 n ++ r) = n % 2 ^ 64 := by
  rw [goUint64_eq]
  rw [byteAt_append _ _ 0 (by simp [le64]), byteAt_append _ _ 1 (by simp [le64]),
    byteAt_append _ _ 2 (by simp [le64]), byteAt_append _ _ 3 (by simp [le64]),
    byteAt_append _ _ 4 (by simp [le64]), byteAt_append _ _ 5 (by simp [le64]),
    byteAt_append _ _ 6 (by simp [le64]), byteAt_append _ _ 7 (by simp [le64])]
  simp only [byteAt, le64, List.getD_cons_zero, List.getD_cons_succ]
  omega

/-- An entry header word with small type_len is type_len + 32 * delta. -/
theorem entryWord_eq (t d : Nat) (h : t < 32) : entryWord t d = t + 32 * d := by
  rw [entryWord, entryTypeLenBits, or_shl t d 5 (by omega)]
  norm_num

/-- The type_len mask extracts mod 32. -/
theorem and_typeLenMask (x : Nat) : x &&& entryTypeLenMask = x % 32 := by
  have h := Nat.and_pow_two_sub_one_eq_mod x 5
  norm_num at h
  have hm : entryTypeLenMask = 31 := by norm_num [entryTypeLenMask, entryTypeLenBits, Nat.shiftLeft_eq]
  rw [hm]
  exact h

/-- The time_delta mask extracts mod 2^27. -/
theorem and_timeDeltaMask (x : Nat) : x &&& entryTimeDeltaMask = x % 2 ^ 27 := by
  have h := Nat.and_pow_two_sub_one_eq_mod x 27
  norm_num at h
  have hm : entryTimeDeltaMask = 134217727 := by norm_num [entryTimeDeltaMask, entryTimeDeltaBits, Nat.shiftLeft_eq]
  rw [hm]
  exact h.trans (by norm_num)

end Ftrace

namespace Ftrace

/-- Dropping past a leading le64 block. -/
theorem drop_le64 (b : Nat) (X : List Nat) (n : Nat) :
    (le64 b ++ X).drop (8 + n) = X.drop n := by
  rw [← List.drop_drop, List.drop_left' (length_le64 b)]

/-- goUint64 of exactly the le64 bytes. -/
theorem goUint64_le64' (n : Nat) : goUint64 (le64 n) = n % 2 ^ 64 := by
  have h := goUint64_le64 n []
  simpa using h

/-- The commit mask of decodePage extracts mod 2^30. -/
theorem and_pageMask (x : Nat) : x &&& ((1 <<< 30) - 1) = x % 2 ^ 30 := by
  have h := Nat.and_pow_two_sub_one_eq_mod x 30
  norm_num at h
  norm_num [Nat.shiftLeft_eq]
  exact h.trans (by norm_num)

/-- The data loop on an empty remainder returns the accumulated events
and the pending lazy error. -/
theorem decodeLoop_nil (f : Ftrace) (cpu : Int) (fd : List Nat) (pl po pos when : Nat)
    (ev : List Event) (le : Option FtraceError) :
    decodeLoop f cpu fd pl po [] pos when ev le = some (ev, le) := by
  rw [decodeLoop]
  simp

/-- One time-extend step of the data loop: the 27-bit header delta is
extended by the following 32-bit word shifted left by 27 and accumulated
into when. -/
theorem decodeLoop_timeExt (f : Ftrace) (cpu : Int) (fd : List Nat) (pl po : Nat)
    (data rest : List Nat) (pos when : Nat) (ev : List Event) (le : Option FtraceError)
    (lo hi : Nat) (hlo : lo < 2 ^ 27) (hhi : hi < 2 ^ 32)
    (hdata : data = le32 (entryWord 30 lo) ++ (le32 hi ++ rest)) :
    decodeLoop f cpu fd pl po data pos when ev le =
      decodeLoop f cpu fd pl po rest (pos + 8) ((when + (lo + 2 ^ 27 * hi)) % 2 ^ 64) ev le := by
  subst hdata
  rw [decodeLoop]
  rw [dif_neg (by simp [le32]), dif_neg (by simp [le32])]
  rw [entryWord_eq 30 lo (by norm_num)]
  simp only [goUint32_le32, List.drop_left' (length_le32 _), entryTypeLenShift,
    entryTimeDeltaShift, entryTypeLenBits, Nat.shiftRight_zero, and_typeLenMask,
    and_timeDeltaMask, entryTypeDataMax, entryTypePadding, entryTypeTimeExt,
    entryTimeDeltaBits, Nat.shiftRight_eq_div_pow, Nat.shiftLeft_eq,
    Nat.mod_eq_of_lt (show 30 + 32 * lo < 2 ^ 32 by omega)]
  rw [if_neg (by omega), if_neg (by omega), if_pos (by omega)]
  rw [if_neg (by simp [le32])]
  simp only [goUint32_le32, List.drop_left' (length_le32 _),
    Nat.mod_eq_of_lt (show hi < 2 ^ 32 from hhi)]
  have h1 : (30 + 32 * lo) / 2 ^ 5 % 2 ^ 27 = lo := by omega
  rw [h1]
  have h2 : (lo + hi * 2 ^ 27) % 2 ^ 64 = lo + 2 ^ 27 * hi := by
    rw [Nat.mod_eq_of_lt (by omega)]
    ring
  rw [h2]

end Ftrace

namespace Ftrace

/-- Dropping a le32 block and a following block of known length. -/
theorem drop_le32_append (a : Nat) (junk rest : List Nat) :
    (le32 a ++ (junk ++ rest)).drop (4 + junk.length) = rest := by
  rw [← List.drop_drop, List.drop_left' (length_le32 a), List.drop_left]

/-- A padding entry with zero time delta ends the data loop, returning
the accumulated events and the pending lazy error. -/
theorem decodeLoop_padding_zero (f : Ftrace) (cpu : Int) (fd : List Nat) (pl po : Nat)
    (data rest : List Nat) (pos when : Nat) (ev : List Event) (le : Option FtraceError)
    (hdata : data = le32 (entryWord 29 0) ++ rest) :
    decodeLoop f cpu fd pl po data pos when ev le = some (ev, le) := by
  subst hdata
  rw [decodeLoop]
  rw [dif_neg (by simp [le32]), dif_neg (by simp [le32])]
  rw [entryWord_eq 29 0 (by norm_num)]
  simp only [goUint32_le32, entryTypeLenShift, entryTimeDeltaShift, entryTypeLenBits,
    Nat.shiftRight_zero, and_typeLenMask, and_timeDeltaMask, entryTypeDataMax,
    entryTypePadding, Nat.shiftRight_eq_div_pow]
  norm_num

/-- A padding entry with nonzero time delta skips the count given by the
following 32-bit length word (counted from that word) and continues. -/
theorem decodeLoop_padding_skip (f : Ftrace) (cpu : Int) (fd : List Nat) (pl po : Nat)
    (data junk rest : List Nat) (pos when : Nat) (ev : List Event) (le : Option FtraceError)
    (d p : Nat) (hd : 0 < d) (hd27 : d < 2 ^ 27) (hp : p = 4 + junk.length)
    (hp32 : p < 2 ^ 32)
    (hdata : data = le32 (entryWord 29 d) ++ (le32 p ++ (junk ++ rest))) :
    decodeLoop f cpu fd pl po data pos when ev le =
      decodeLoop f cpu fd pl po rest (pos + 4 + p) when ev le := by
  subst hdata
  subst hp
  rw [decodeLoop]
  rw [dif_neg (by simp [le32]), dif_neg (by simp [le32])]
  rw [entryWord_eq 29 d (by norm_num)]
  simp only [goUint32_le32, List.drop_left' (length_le32 _), entryTypeLenShift,
    entryTimeDeltaShift, entryTypeLenBits, Nat.shiftRight_zero, and_typeLenMask,
    and_timeDeltaMask, entryTypeDataMax, entryTypePadding, Nat.shiftRight_eq_div_pow,
    Nat.mod_eq_of_lt (show 29 + 32 * d < 2 ^ 32 by omega),
    Nat.mod_eq_of_lt (show 4 + junk.length < 2 ^ 32 from hp32)]
  rw [if_neg (by omega), if_pos (by omega), if_neg (by omega), if_neg (by simp [le32])]
  rw [if_neg (by simp [le32]; omega)]
  rw [drop_le32_append]

/-- A padding entry whose length word exceeds the remaining bytes makes
the data loop panic (Go slice bounds out of range on data[padding:]). -/
theorem decodeLoop_padding_panic (f : Ftrace) (cpu : Int) (fd : List Nat) (pl po : Nat)
    (data junk : List Nat) (pos when : Nat) (ev : List Event) (le : Option FtraceError)
    (d p : Nat) (hd : 0 < d) (hd27 : d < 2 ^ 27) (hp32 : p < 2 ^ 32)
    (hover : 4 + junk.length < p)
    (hdata : data = le32 (entryWord 29 d) ++ (le32 p ++ junk)) :
    decodeLoop f cpu fd pl po data pos when ev le = none := by
  subst hdata
  rw [decodeLoop]
  rw [dif_neg (by simp [le32]), dif_neg (by simp [le32])]
  rw [entryWord_eq 29 d (by norm_num)]
  simp only [goUint32_le32, List.drop_left' (length_le32 _), entryTypeLenShift,
    entryTimeDeltaShift, entryTypeLenBits, Nat.shiftRight_zero, and_typeLenMask,
    and_timeDeltaMask, entryTypeDataMax, entryTypePadding, Nat.shiftRight_eq_div_pow,
    Nat.mod_eq_of_lt (show 29 + 32 * d < 2 ^ 32 by omega),
    Nat.mod_eq_of_lt (show p < 2 ^ 32 from hp32)]
  rw [if_neg (by omega), if_pos (by omega), if_neg (by omega), if_neg (by simp [le32])]
  rw [if_pos (by simp [le32]; omega)]

/-- Decoding the fixture event bytes with the fixture event type. -/
theorem DecodeEvent_testEvent (cpu : Int) (w : Nat) :
    testEventType.DecodeEvent testEventBytes cpu w =
      some (.ok (Event.mk testEventType testEventValues cpu w 0 0 0 testEventBytes)) := rfl

/-- One data-entry step of the loop on the fixture event: the delta is
accumulated and the decoded event appended. -/
theorem decodeLoop_testEvent (cpu : Int) (fd : List Nat) (pl po : Nat)
    (data rest : List Nat) (pos when : Nat) (ev : List Event) (le : Option FtraceError)
    (d : Nat) (hd : d < 2 ^ 27)
    (hdata : data = le32 (entryWord 2 d) ++ (testEventBytes ++ rest)) :
    decodeLoop testFtrace cpu fd pl po data pos when ev le =
      decodeLoop testFtrace cpu fd pl po rest (pos + 12) ((when + d) % 2 ^ 64)
        (ev ++ [Event.mk testEventType testEventValues cpu ((when + d) % 2 ^ 64) 0 0 0
          testEventBytes]) le := by
  subst hdata
  rw [decodeLoop]
  rw [dif_neg (by simp [le32]), dif_neg (by simp [le32])]
  rw [entryWord_eq 2 d (by norm_num)]
  simp only [goUint32_le32, entryTypeLenShift, entryTimeDeltaShift, entryTypeLenBits,
    Nat.shiftRight_zero, and_typeLenMask, and_timeDeltaMask, entryTypeDataMax,
    Nat.shiftRight_eq_div_pow, Nat.pow_zero, Nat.div_one,
    Nat.mod_eq_of_lt (show 2 + 32 * d < 2 ^ 32 by omega)]
  rw [show (2 + 32 * d) % 32 = 2 by omega, show (2 + 32 * d) / 2 ^ 5 % 2 ^ 27 = d by omega]
  rw [if_pos (by norm_num)]
  norm_num
  rw [if_neg (by simp [le32, testEventBytes]; try omega)]
  simp only [List.drop_left' (length_le32 _)]
  rw [List.take_left' (show (testEventBytes).length = 8 from rfl)]
  rw [show alignDown4 11 = 8 from rfl]
  rw [show (4:Nat) + 8 = 4 + (testEventBytes).length from rfl]
  rw [drop_le32_append]
  rw [show goUint16 testEventBytes = 1 from rfl]
  rw [show testFtrace.eventTypes 1 = some testEventType from rfl]
  simp only [DecodeEvent_testEvent]

end Ftrace

namespace Ftrace

/-- Decoding the fixture page header on a page built as header bytes
followed by entry bytes: the header passes its checks and the data loop
starts at the data offset with when equal to the base timestamp. -/
theorem decodePage_testPage (cpu : Int) (base : Nat) (entries : List Nat)
    (hb : base < 2 ^ 64) (hlen : entries.length < 2 ^ 30) :
    decodePage testFtrace cpu (le64 base ++ (le64 entries.length ++ entries)) =
      decodeLoop testFtrace cpu (le64 base ++ (le64 entries.length ++ entries))
        entries.length 16 entries 16 base [] none := by
  have hd16 : (le64 base ++ (le64 entries.length ++ entries)).drop 16 = entries := by
    have h := drop_le64 base (le64 entries.length ++ entries) 8
    norm_num at h
    rw [h, List.drop_left' (length_le64 _)]
  have hd8 : (le64 base ++ (le64 entries.length ++ entries)).drop 8 =
      le64 entries.length ++ entries := by
    have h := drop_le64 base (le64 entries.length ++ entries) 0
    norm_num at h
    exact h
  have hlen' : (le64 base ++ (le64 entries.length ++ entries)).length =
      16 + entries.length := by
    simp [le64]
    omega
  rw [decodePage]
  rw [show testFtrace.pageHeader = testPageHeader from rfl]
  rw [EventType.DecodeEvent]
  rw [if_neg (by rw [show testPageHeader.size = 16 from rfl, hlen']; omega)]
  simp only [show testPageHeader.fields = testPageHeaderFields from rfl,
    testPageHeaderFields, List.map_cons, List.map_nil]
  simp only [List.drop_zero, List.take_left' (length_le64 base), hd8, hd16,
    List.take_left' (length_le64 entries.length), List.take_zero]
  rw [show testPageHeader.pidField = 0 from rfl, show testPageHeader.flagsField = 0 from rfl,
    show testPageHeader.preemptField = 0 from rfl]
  simp only [sliceIndex]
  norm_num
  rw [show testFtrace.pageHeaderFieldTimestamp = 0 from rfl,
    show testFtrace.pageHeaderFieldCommit = 1 from rfl,
    show testFtrace.pageHeaderFieldData = 2 from rfl]
  norm_num
  simp only [eventFieldValue.DecodeUint]
  norm_num [goUint64_le64', and_pageMask]
  simp only [show Int.toNat 2 = 2 from rfl]
  norm_num
  rw [show entries.length % 1073741824 = entries.length by omega]
  rw [if_neg (by simp [le64]; omega)]
  rw [hd16, List.take_length]
  rw [List.take_of_length_le (by rw [hlen'])]
  rw [show base % 18446744073709551616 = base by omega]

section ClaimC6

open Ftrace

/-- C6: decoding a page whose first entry is a time-extend record
(type_len 30) followed by one data event yields exactly one Event whose
When equals the page-header base timestamp plus delta_lo OR'd with the
following 32-bit word shifted left by 27 (accumulated with uint64
wraparound). -/
theorem c6_time_extend (cpu : Int) (base lo hi : Nat) (hb : base < 2 ^ 64)
    (hlo : lo < 2 ^ 27) (hhi : hi < 2 ^ 32) :
    decodePage testFtrace cpu (le64 base ++ (le64 20 ++
        (le32 (entryWord 30 lo) ++ (le32 hi ++ (le32 (entryWord 2 0) ++ testEventBytes))))) =
      some ([Event.mk testEventType testEventValues cpu
        ((base + (lo ||| (hi <<< 27))) % 2 ^ 64) 0 0 0 testEventBytes], none) := by
  have hent : (le32 (entryWord 30 lo) ++ (le32 hi ++ (le32 (entryWord 2 0) ++
      testEventBytes))).length = 20 := by
    simp [le32, testEventBytes]
  rw [show (20:Nat) = (le32 (entryWord 30 lo) ++ (le32 hi ++ (le32 (entryWord 2 0) ++
    testEventBytes))).length from hent.symm]
  rw [decodePage_testPage cpu base _ hb (by rw [hent]; norm_num)]
  rw [decodeLoop_timeExt _ _ _ _ _ _ (le32 (entryWord 2 0) ++ testEventBytes)
    _ _ _ _ lo hi hlo hhi rfl]
  rw [decodeLoop_testEvent _ _ _ _ _ [] _ _ _ _ 0 (by norm_num) (by simp)]
  rw [decodeLoop_nil]
  rw [or_shl lo hi 27 hlo]
  rw [show ((base + (lo + 2 ^ 27 * hi)) % 2 ^ 64 + 0) % 2 ^ 64 =
    (base + (lo + 2 ^ 27 * hi)) % 2 ^ 64 by omega]
  rw [List.nil_append]

/-- C6 witness at cpu 0, base 5, delta_lo 3, delta_hi 2. -/
theorem c6_time_extend_witness :
    decodePage testFtrace 0 (le64 5 ++ (le64 20 ++
        (le32 (entryWord 30 3) ++ (le32 2 ++ (le32 (entryWord 2 0) ++ testEventBytes))))) =
      some ([Event.mk testEventType testEventValues 0
        ((5 + (3 ||| (2 <<< 27))) % 2 ^ 64) 0 0 0 testEventBytes], none) :=
  c6_time_extend 0 5 3 2 (by norm_num) (by norm_num) (by norm_num)

end ClaimC6

section ClaimC7

open Ftrace

/-- C7: a padding entry (type_len 29) with time_delta 0 ends page
decoding immediately and cleanly, whatever bytes follow; with nonzero
time_delta the following 32-bit word gives the padding length (counted
from the start of that word), which is skipped before decoding continues
with the following entry — here a data event that is still decoded. -/
theorem c7_padding :
    (∀ (cpu : Int) (junk : List Nat) (base : Nat), base < 2 ^ 64 →
      4 + junk.length < 2 ^ 30 →
      decodePage testFtrace cpu (le64 base ++ (le64 (4 + junk.length) ++
        (le32 (entryWord 29 0) ++ junk))) = some ([], none)) ∧
    (∀ (cpu : Int) (junk : List Nat) (base d : Nat), base < 2 ^ 64 → 0 < d → d < 2 ^ 27 →
      20 + junk.length < 2 ^ 30 →
      decodePage testFtrace cpu (le64 base ++ (le64 (20 + junk.length) ++
        (le32 (entryWord 29 d) ++ (le32 (4 + junk.length) ++ (junk ++
          (le32 (entryWord 2 0) ++ testEventBytes)))))) =
        some ([Event.mk testEventType testEventValues cpu base 0 0 0 testEventBytes],
          none)) := by
  constructor
  · intro cpu junk base hb hlen
    have hent : (le32 (entryWord 29 0) ++ junk).length = 4 + junk.length := by
      simp [le32]
      omega
    rw [show 4 + junk.length = (le32 (entryWord 29 0) ++ junk).length from hent.symm]
    rw [decodePage_testPage cpu base _ hb (by rw [hent]; omega)]
    rw [decodeLoop_padding_zero _ _ _ _ _ _ junk _ _ _ _ rfl]
  · intro cpu junk base d hb hd hd27 hlen
    have hent : (le32 (entryWord 29 d) ++ (le32 (4 + junk.length) ++ (junk ++
        (le32 (entryWord 2 0) ++ testEventBytes)))).length = 20 + junk.length := by
      simp [le32, testEventBytes]
      omega
    rw [show 20 + junk.length = (le32 (entryWord 29 d) ++ (le32 (4 + junk.length) ++
      (junk ++ (le32 (entryWord 2 0) ++ testEventBytes)))).length from hent.symm]
    rw [decodePage_testPage cpu base _ hb (by rw [hent]; omega)]
    rw [decodeLoop_padding_skip _ _ _ _ _ _ junk (le32 (entryWord 2 0) ++ testEventBytes)
      _ _ _ _ d (4 + junk.length) hd hd27 rfl (by omega) rfl]
    rw [decodeLoop_testEvent _ _ _ _ _ [] _ _ _ _ 0 (by norm_num) (by simp)]
    rw [decodeLoop_nil]
    rw [show (base + 0) % 2 ^ 64 = base by omega]
    rw [List.nil_append]

/-- C7 witness: a delta-0 padding page with four junk bytes, and a
padding-skip page whose skipped region is empty. -/
theorem c7_padding_witness :
    decodePage testFtrace 0 (le64 7 ++ (le64 (4 + ([9, 9, 9, 9] : List Nat).length) ++
      (le32 (entryWord 29 0) ++ [9, 9, 9, 9]))) = some ([], none) ∧
    decodePage testFtrace 0 (le64 7 ++ (le64 (20 + ([] : List Nat).length) ++
      (le32 (entryWord 29 5) ++ (le32 (4 + ([] : List Nat).length) ++ (([] : List Nat) ++
        (le32 (entryWord 2 0) ++ testEventBytes)))))) =
      some ([Event.mk testEventType testEventValues 0 7 0 0 0 testEventBytes], none) :=
  ⟨c7_padding.1 0 [9, 9, 9, 9] 7 (by norm_num) (by norm_num),
   c7_padding.2 0 [] 7 5 (by norm_num) (by norm_num) (by norm_num) (by norm_num)⟩

end ClaimC7

section ClaimC10

open Ftrace

/-- C10: the claim says a padding entry whose 32-bit length word exceeds
the bytes remaining in the page still returns an error; in the code
data = data[padding:] then panics (Go slice bounds out of range, modelled
none), so decodePage is not total on such pages: an 8-byte entry region
holding a padding entry with time_delta 1 and length word 100 makes
decodePage panic instead of returning an error. -/
theorem c10_padding_overrun :
    decodePage testFtrace 0 (le64 0 ++ (le64 8 ++
      (le32 (entryWord 29 1) ++ le32 100))) = none := by
  have hent : ((le32 (entryWord 29 1) ++ le32 100) : List Nat).length = 8 := by
    simp [le32]
  rw [show (8:Nat) = ((le32 (entryWord 29 1) ++ le32 100) : List Nat).length
    from hent.symm]
  rw [decodePage_testPage 0 0 _ (by norm_num) (by rw [hent]; norm_num)]
  exact decodeLoop_padding_panic _ _ _ _ _ _ [] _ _ _ _ 1 100 (by norm_num) (by norm_num)
    (by norm_num) (by norm_num) (by simp)

end ClaimC10
